import Mathlib

/-!
Verification of the XML code-generation backend of the rusty-fork PLC
compiler (crates `plc_xmlgen` / `plc_xml`).

The development shallowly embeds the Rust sources:

* `serializer.rs` — the generic `Node` tree model and its `serialize`
  method;
* `xml_gen.rs` — the translation pipeline: `format_enum_initials`
  (enumerator conflict resolution), `generate_variable_element`
  (including the `orderWithinParamSet` search), `generate_globals`,
  `generate_custom_types`, `generate_pous` and
  `parse_project_into_nodetree`.

Machine integers are embedded as `Nat`/`Int` with explicit wrapping
(`% 2^64` for `usize`) or explicit range checks (for `i32`'s
`checked_add`).  Rust panics (`expect`, unreachable states) are embedded
as `Except GenError`; `Result<_, ()>` values whose error the caller
discards are embedded as `Option`.  File I/O performed while extracting
procedure bodies is embedded as an explicit oracle function passed as a
parameter.  Hash sets that are only subjected to `contains`/`insert`
are embedded as duplicate-free lists.
-/

/-! ## The document node model (`serializer.rs`) -/

/-- The universal element representation (`struct Node` in
`serializer.rs`): tag name, ordered children, attribute map, the
self-closing flag and the optional text payload.  The Rust
`FxHashMap<String, String>` of attributes is embedded as an association
list with last-write-wins insertion. -/
structure Node where
  name : String
  children : List Node
  attributes : List (String × String)
  closed : Bool
  content : Option String

/-- `FxHashMap::insert`: overwrite the value when the key is present,
otherwise add the pair. -/
def attrInsert (l : List (String × String)) (key value : String) :
    List (String × String) :=
  if l.any (fun p => p.1 == key) then
    l.map (fun p => if p.1 == key then (p.1, value) else p)
  else
    l ++ [(key, value)]

/-- `Node::new`. -/
def Node.new (name : String) : Node :=
  { name := name, attributes := [], children := [], closed := false, content := none }

/-- `Node::attribute` (insert or overwrite, last call for a key wins). -/
def Node.attr (n : Node) (key value : String) : Node :=
  { n with attributes := attrInsert n.attributes key value }

/-- `Node::child`: append a value-copy of the given node. -/
def Node.child (n : Node) (c : Node) : Node :=
  { n with children := n.children ++ [c] }

/-- `Node::children`: batch append, preserving input order. -/
def Node.childrenAdd (n : Node) (cs : List Node) : Node :=
  { n with children := n.children ++ cs }

/-- `Node::close`: set the self-closing flag. -/
def Node.close (n : Node) : Node :=
  { n with closed := true }

/-- `Node::content_borrowed` / the typed builders' `content`: set the
text payload. -/
def Node.contentSet (n : Node) (s : String) : Node :=
  { n with content := some s }

/-- `Node::indent`: four spaces per level. -/
def Node.indentStr (level : Nat) : String :=
  String.mk (List.replicate (level * 4) ' ')

/-- The rendering of the attribute map as `key="value"` pairs separated
by spaces (the iterator/`join` chain inside `Node::serialize`). -/
def Node.attrsStr (n : Node) : String :=
  String.intercalate " "
    (n.attributes.map (fun p => p.1 ++ "=\"" ++ p.2 ++ "\""))

/-- `Node::serialize_content`: one line, `<name>content</name>`. -/
def Node.serializeContent (indent name content : String) : String :=
  indent ++ "<" ++ name ++ ">" ++ content ++ "</" ++ name ++ ">\n"

/-- `Node::serialize`: (1) if `closed`, a self-closing tag with
attributes; (2) else if `content` is set, one line via
`serialize_content`; (3) else an opening tag, every child at
`level + 1`, and a closing tag. -/
def Node.serialize (n : Node) (level : Nat) : String :=
  let indent := Node.indentStr level
  if n.closed then
    indent ++ "<" ++ n.name ++ " " ++ n.attrsStr ++ "/>\n"
  else
    match n.content with
    | some c => Node.serializeContent indent n.name c
    | none =>
        let opening := indent ++ "<" ++ n.name ++ " " ++ n.attrsStr ++ ">\n"
        let body := (n.children.attach.map
          (fun c => Node.serialize c.1 (level + 1))).foldl (· ++ ·) ""
        opening ++ body ++ indent ++ "</" ++ n.name ++ ">\n"
termination_by n
decreasing_by
  have hmem := c.2
  have h1 : sizeOf c.1 < sizeOf n.children := List.sizeOf_lt_of_mem hmem
  have h2 : sizeOf n.children < sizeOf n := by
    cases n
    simp only [Node.mk.sizeOf_spec]
    omega
  omega

/-- ASCII lowercasing of `str::to_lowercase` (the strings compared in
the source — `".st"`, `"string"` — are ASCII). -/
def strToLower (s : String) : String :=
  String.mk (s.data.map Char.toLower)

/-- `str::ends_with`. -/
def strEndsWith (s suffix : String) : Bool :=
  suffix.data.isSuffixOf s.data

/-- `str::contains` for a literal pattern. -/
def strContainsStr (s pattern : String) : Bool :=
  s.data.tails.any (fun t => pattern.data.isPrefixOf t)

/-! ## Skeleton anchors (`serializer.rs` constants) -/

def GLOBAL_NAMESPACE : String := "GlobalNamespace"
def INSTANCES : String := "Instances"
def CONFIGURATION : String := "Configuration"
def RESOURCE : String := "Resource"
def TYPES : String := "Types"

/-! ## Enumerator conflict resolution (`format_enum_initials`) -/

/-- `struct NameAndInitialValue` in `xml_gen.rs`. -/
structure NameAndInitialValue where
  name : String
  initial_value : String
deriving Repr, DecidableEq

/-- `i32::MAX`. -/
def i32Max : Int := 2 ^ 31 - 1

/-- `i32::MIN`. -/
def i32Min : Int := -(2 ^ 31)

/-- `str::parse::<i32>`: an optional `+`/`-` sign, one or more ASCII
digits, and the value must fit in `i32`; anything else is a parse
error. -/
def parseI32 (s : String) : Option Int :=
  let rest := s.data
  let signAndDigits : Int × List Char :=
    match rest with
    | '+' :: r => (1, r)
    | '-' :: r => (-1, r)
    | r => (1, r)
  let sign := signAndDigits.1
  let ds := signAndDigits.2
  if ds.isEmpty then none
  else if ds.all (fun c => c.isDigit) then
    let magnitude : Nat := ds.foldl (fun acc c => acc * 10 + (c.toNat - '0'.toNat)) 0
    let v : Int := sign * (magnitude : Int)
    if i32Min ≤ v ∧ v ≤ i32Max then some v else none
  else none

/-- Failure conditions of the embedded generator: each constructor is
one way the Rust code panics, plus `searchFuel`, the model's bounded
stand-in for the (in practice unbounded) probe loops. -/
inductive GenError where
  | overflow          -- `checked_add(..).expect("no overflow")`
  | badParse          -- `parse::<i32>().expect("signed integer")`
  | missingMetadata   -- `.expect("pou metadata matching the current implementation")`
  | badEnumAst        -- the `panic!` arms of `parse_enum_expression`
  | fileRead          -- `File::open` / `read_exact` `.expect` failures
  | searchFuel        -- model fuel exhausted in a probe loop
deriving Repr, DecidableEq

/-- The conflict probe loop of `format_enum_initials`: probe
`parsed + 1, parsed + 2, …` (checked `i32` addition — exceeding
`i32::MAX` is fatal) until a value whose decimal string is not yet in
`viewed_values` is found. -/
def probeEnumValue (parsed : Int) (viewed : List String) :
    Nat → Int → Except GenError String
  | 0, _ => .error .searchFuel
  | fuel + 1, increment =>
      if parsed + increment > i32Max then .error .overflow
      else
        let newStr := toString (parsed + increment)
        if viewed.contains newStr then
          probeEnumValue parsed viewed fuel (increment + 1)
        else
          .ok newStr

/-- The in-place rewriting pass of `format_enum_initials`: walk the
candidates in order, keeping fresh values and auto-incrementing
conflicting ones, threading the `viewed_values` set. -/
def resolveEnumValues (viewed : List String) :
    List NameAndInitialValue →
    Except GenError (List NameAndInitialValue × List String)
  | [] => .ok ([], viewed)
  | x :: rest =>
      if viewed.contains x.initial_value then
        match parseI32 x.initial_value with
        | none => .error .badParse
        | some parsed => do
            let newStr ← probeEnumValue parsed viewed (viewed.length + 1) 1
            let out ← resolveEnumValues (newStr :: viewed) rest
            .ok ({ x with initial_value := newStr } :: out.1, out.2)
      else do
        let out ← resolveEnumValues (x.initial_value :: viewed) rest
        .ok (x :: out.1, out.2)

/-- The final mapping step of `format_enum_initials`: each resolved
candidate becomes an `Enumerator` node with `name` and `value`
attributes. -/
def enumeratorNode (x : NameAndInitialValue) : Node :=
  ((Node.new "Enumerator").attr "name" x.name).attr "value" x.initial_value

/-- `format_enum_initials` (`xml_gen.rs`): resolve initial-value
conflicts by deterministic auto-increment, then build `Enumerator`
nodes. -/
def format_enum_initials (enum_variants : List NameAndInitialValue) :
    Except GenError (List Node) := do
  let resolved ← resolveEnumValues [] enum_variants
  .ok (resolved.1.map enumeratorNode)

/-- Attribute lookup on a generated node (first match, as the attribute
keys are unique). -/
def Node.getAttr (n : Node) (key : String) : Option String :=
  (n.attributes.find? (fun p => p.1 == key)).map (fun p => p.2)

/-! ## The compiler-facing data model (fields of `plc_ast` / `plc_source`
actually consumed by `xml_gen.rs`) -/

/-- `CodeSpan` — only the `Range` payload's byte offsets are consumed
(`range.start.offset`, `range.end.offset`). -/
inductive CodeSpan where
  | none
  | range (startOffset endOffset : Nat)
deriving Repr, DecidableEq

/-- `FileMarker` — the generator only distinguishes `File(path)` from
everything else. -/
inductive FileMarker where
  | file (path : String)
  | internal (name : String)
deriving Repr, DecidableEq

/-- `SourceLocation`. -/
structure SourceLocation where
  span : CodeSpan
  file : FileMarker
deriving Repr, DecidableEq

/-- The `stmt` shapes of initializer / address AST nodes consumed by
`generate_variable_element`: only `AstStatement::Literal` is used, via
its `to_string()` rendering. -/
inductive AstStmt where
  | literal (toStr : String)
  | nonLiteral
deriving Repr, DecidableEq

/-- `Variable` — the consumed fields (`variables` in a block is embedded
as `vars`).  `data_type_declaration` is embedded by the result of its
`get_name()` call. -/
structure Variable where
  name : String
  data_type_declaration : Option String
  initializer : Option AstStmt
  address : Option AstStmt
  location : SourceLocation
deriving Repr, DecidableEq

/-- `VariableBlockType`.  The `Global` payload is embedded by the
`to_string()` of the network publish mode; the `Input` payload is not
consumed. -/
inductive VariableBlockType where
  | global (networkPublishMode : String)
  | localK
  | temp
  | input
  | output
  | inOut
  | external
deriving Repr, DecidableEq

/-- `VariableBlock` — the consumed fields; the `variables` field is
embedded as `vars` (Lean reserves the word). -/
structure VariableBlock where
  vars : List Variable
  kind : VariableBlockType
  constant : Bool
  retain : Bool
deriving Repr, DecidableEq

/-- The shapes of the left side of an enum-variant assignment that
`parse_enum_expression` matches on: a `ReferenceExpr` whose access is a
`Member` holding an `Identifier`, or anything else (a panic). -/
inductive EnumLeft where
  | refMemberIdent (name : String)
  | otherLeft
deriving Repr, DecidableEq

/-- The shapes of the right side of an enum-variant assignment:
a `Literal`, a `BinaryExpression` whose right side is a `Literal`
(both embedded by the literal's `to_string()`), a `BinaryExpression`
with a non-literal right side, or anything else (panics). -/
inductive EnumRight where
  | lit (toStr : String)
  | binLit (toStr : String)
  | binOther
  | otherRight
deriving Repr, DecidableEq

/-- `Assignment` as consumed by `parse_enum_expression`. -/
structure Assignment where
  left : EnumLeft
  right : EnumRight
deriving Repr, DecidableEq

/-- One item of an enum `ExpressionList`: an `Assignment` or anything
else (a panic). -/
inductive EnumElem where
  | assignment (a : Assignment)
  | otherElem
deriving Repr, DecidableEq

/-- The `stmt` of the `elements` node of an `EnumType`: an
`ExpressionList`, a single `Assignment`, or anything else (a panic). -/
inductive EnumElements where
  | exprList (elems : List EnumElem)
  | assignment (a : Assignment)
  | otherElements
deriving Repr, DecidableEq

/-- `DataType` — the three shapes `generate_custom_types`
distinguishes. -/
inductive DataType where
  | structType (name : Option String) (vars : List Variable)
  | enumType (name : Option String) (numeric_type : String) (elements : EnumElements)
  | otherType
deriving Repr, DecidableEq

/-- `UserTypeDeclaration` — the consumed fields. -/
structure UserTypeDeclaration where
  data_type : DataType
  location : SourceLocation
deriving Repr, DecidableEq

/-- `PouType` — the generator only distinguishes the three supported
kinds. -/
inductive PouType where
  | program
  | function
  | functionBlock
  | otherKind
deriving Repr, DecidableEq

/-- `LinkageType`. -/
inductive LinkageType where
  | internal
  | external
deriving Repr, DecidableEq

/-- `Pou` (declared metadata) — the consumed fields.  `return_type` is
embedded as the optional declaration together with the result of its
`get_name()` call. -/
structure Pou where
  name : String
  variable_blocks : List VariableBlock
  return_type : Option (Option String)
deriving Repr, DecidableEq

/-- `Implementation` — the consumed fields. -/
structure Implementation where
  name : String
  pou_type : PouType
  linkage : LinkageType
  location : SourceLocation
deriving Repr, DecidableEq

/-- `CompilationUnit` — the consumed fields; `file` is the result of
`file.get_name()`. -/
structure CompilationUnit where
  file : Option String
  global_vars : List VariableBlock
  user_types : List UserTypeDeclaration
  pous : List Pou
  implementations : List Implementation
deriving Repr, DecidableEq

/-- `GenerationParameters`. -/
structure GenerationParameters where
  output_xml_omron : Bool
deriving Repr, DecidableEq

/-! ## The `orderWithinParamSet` search (`generate_variable_element`,
`xml_gen.rs` lines 622–637) -/

/-- `usize::MAX + 1`: `usize` arithmetic wraps modulo this in a release
build. -/
def U64 : Nat := 2 ^ 64

/-- The probe loop: `iteration_order += increment; increment += 1;`
then test membership of `(pou_name, iteration_order)`; claim the first
free key.  Both `+=` additions are plain (unchecked, wrapping) `usize`
additions.  The fuel argument bounds the model; the Rust loop is
unbounded. -/
def searchOrderGo (pou : String) :
    Nat → Nat → Nat → List (String × Nat) →
    Except GenError (Nat × List (String × Nat))
  | 0, _, _, _ => .error .searchFuel
  | fuel + 1, iterationOrder, increment, preused =>
      let iterationOrder' := (iterationOrder + increment) % U64
      let increment' := (increment + 1) % U64
      if preused.contains (pou, iterationOrder') then
        searchOrderGo pou fuel iterationOrder' increment' preused
      else
        .ok (iterationOrder', (pou, iterationOrder') :: preused)

/-- The whole search: start at the declared index with increment `0`.
Fuel `preused.length + 1` suffices whenever the claimed keys stay below
`2 ^ 32` probes (always, in practice). -/
def searchOrder (pou : String) (order : Nat) (preused : List (String × Nat)) :
    Except GenError (Nat × List (String × Nat)) :=
  searchOrderGo pou (preused.length + 1) order 0 preused

/-- Modelled from the spec: the probe order the specification describes
for the order search — successive integers `index, index + 1,
index + 2, …` — i.e. the least unclaimed value at or above the start
index.  This definition follows the spec's words (not the source) and
exists only to be compared with `searchOrder`. -/
def specSuccessiveSearch (pou : String) :
    Nat → Nat → List (String × Nat) → Except GenError Nat
  | 0, _, _ => .error .searchFuel
  | fuel + 1, candidate, preused =>
      if preused.contains (pou, candidate) then
        specSuccessiveSearch pou fuel (candidate + 1) preused
      else
        .ok candidate

/-- The result node and updated state of `generate_variable_element`.
`assigned` is ghost instrumentation: the `(pou_name, order)` key claimed
by this call, when one was. -/
structure VarElemResult where
  node : Node
  preused : List (String × Nat)
  assigned : Option (String × Nat)

/-- `generate_variable_element` (`xml_gen.rs`): build a `Variable`
element with name, `AddData/Data/GlobalVariableAdditionalProperties`
(network publish), `Type/TypeName`, the optional `orderWithinParamSet`
attribute found by `searchOrder`, the optional
`InitialValue/SimpleValue` and the optional `Address`.  Returns
`.ok none` when the variable has no resolvable type name (the caller
skips it); the order set is then untouched. -/
def generate_variable_element (current_variable : Variable)
    (generation_parameters : GenerationParameters) (pou_name : String)
    (schema_path : String) (network_publish : String)
    (preused_order : List (String × Nat)) (order : Nat) (add_order : Bool) :
    Except GenError (Option VarElemResult) := do
  let variable_node := (Node.new "Variable").attr "name" current_variable.name
  let additional_property_node :=
    (Node.new "GlobalVariableAdditionalProperties").attr "networkPublish" network_publish
  let data_node := (((Node.new "Data").attr "name" schema_path).attr
    "handleUnknown" "discard").child additional_property_node
  let adddata_node := (Node.new "AddData").child data_node
  let variable_node := variable_node.child adddata_node
  match current_variable.data_type_declaration with
  | none => .ok none
  | some tn =>
      let typename :=
        if strContainsStr (strToLower tn) "string" &&
            generation_parameters.output_xml_omron then
          "String[1986]"
        else tn
      let typename_node := (Node.new "TypeName").contentSet typename
      let typenode := (Node.new "Type").child typename_node
      let variable_node := variable_node.child typenode
      let afterOrder :
          Except GenError (Node × List (String × Nat) × Option (String × Nat)) :=
        if add_order then do
          let found ← searchOrder pou_name order preused_order
          .ok (variable_node.attr "orderWithinParamSet" (toString found.1),
               found.2, some (pou_name, found.1))
        else
          .ok (variable_node, preused_order, none)
      let (variable_node, preused', assigned) ← afterOrder
      let variable_node :=
        match current_variable.initializer with
        | some (.literal litStr) =>
            let simple_node := ((Node.new "SimpleValue").attr "value" litStr).close
            let initial_node := (Node.new "InitialValue").child simple_node
            variable_node.child initial_node
        | _ => variable_node
      let variable_node :=
        match current_variable.address with
        | some (.literal litStr) =>
            variable_node.child ((Node.new "Address").attr "address" litStr)
        | _ => variable_node
      .ok (some ⟨variable_node, preused', assigned⟩)

/-! ## Tree navigation helpers (the `children.iter_mut().find(..)`
pattern of `xml_gen.rs`) -/

/-- Replace the first child with the given tag name by `f` of it;
`none` when no child carries the name. -/
def updateFirstNamed (target : String) (f : Node → Option Node) :
    List Node → Option (List Node)
  | [] => none
  | c :: rest =>
      if c.name == target then (f c).map (· :: rest)
      else (updateFirstNamed target f rest).map (c :: ·)

/-- Apply `f` to the first child named `target` (`children.iter_mut()
.find(|a| a.name == target)` followed by mutation through the
reference). -/
def Node.updateNamed (n : Node) (target : String) (f : Node → Option Node) :
    Option Node :=
  (updateFirstNamed target f n.children).map
    (fun cs => { n with children := cs })

/-- The nested `Types` → `GlobalNamespace` anchor lookup shared by
`generate_custom_types` and `generate_pous`. -/
def updateGlobalNamespace (root : Node) (f : Node → Node) : Option Node :=
  root.updateNamed TYPES
    (fun t => t.updateNamed GLOBAL_NAMESPACE (fun g => some (f g)))

/-! ## The globals pass (`generate_globals`) -/

/-- The inner variable loop of `generate_globals`: walk one block's
variables with their indices, skipping compiler-generated variables
(`CodeSpan::None`), non-global block kinds and variables without a
resolvable type name; `add_order` is always `false` here. -/
def genGlobalVarsLoop (gp : GenerationParameters)
    (unit_name schema_path : String) (kind : VariableBlockType) :
    List Variable → Nat → List (String × Nat) →
    Except GenError (List Node × List (String × Nat))
  | [], _, preused => .ok ([], preused)
  | v :: rest, b, preused =>
      if v.location.span = CodeSpan.none then
        genGlobalVarsLoop gp unit_name schema_path kind rest (b + 1) preused
      else
        match kind with
        | .global network_publish_mode => do
            let r ← generate_variable_element v gp unit_name schema_path
              network_publish_mode preused b false
            match r with
            | none =>
                genGlobalVarsLoop gp unit_name schema_path kind rest (b + 1) preused
            | some res => do
                let out ← genGlobalVarsLoop gp unit_name schema_path kind rest
                  (b + 1) res.preused
                .ok (res.node :: out.1, out.2)
        | _ => genGlobalVarsLoop gp unit_name schema_path kind rest (b + 1) preused

/-- The four `GlobalVars` buckets (constant∧retain, constant, retain,
neither) accumulated over the blocks of one unit. -/
structure GlobalsBuckets where
  constant_retain_globals : Node
  constant_globals : Node
  retain_globals : Node
  normal_globals : Node

/-- The outer block loop of `generate_globals`. -/
def genGlobalsBlocks (gp : GenerationParameters)
    (unit_name schema_path : String) :
    List VariableBlock → GlobalsBuckets → List (String × Nat) →
    Except GenError (GlobalsBuckets × List (String × Nat))
  | [], acc, preused => .ok (acc, preused)
  | blk :: rest, acc, preused => do
      let out ← genGlobalVarsLoop gp unit_name schema_path blk.kind blk.vars 0 preused
      let acc' :=
        if blk.constant ∧ blk.retain then
          { acc with constant_retain_globals :=
              acc.constant_retain_globals.childrenAdd out.1 }
        else if blk.constant then
          { acc with constant_globals := acc.constant_globals.childrenAdd out.1 }
        else if blk.retain then
          { acc with retain_globals := acc.retain_globals.childrenAdd out.1 }
        else
          { acc with normal_globals := acc.normal_globals.childrenAdd out.1 }
      genGlobalsBlocks gp unit_name schema_path rest acc' out.2

/-- `generate_globals` (`xml_gen.rs`): partition the unit's global
variables into the four buckets and append them under one
`Resource` / `Configuration` pair to the `Instances` anchor.  `.ok none`
embeds the `Err(())` whose error the caller discards (anchor not
found); the tree and order set are then untouched. -/
def generate_globals (gp : GenerationParameters) (cu : CompilationUnit)
    (unit_name schema_path : String) (preused : List (String × Nat))
    (output_root : Node) :
    Except GenError (Option (Node × List (String × Nat))) :=
  if (output_root.children.find? (fun a => a.name == INSTANCES)).isNone then
    .ok none
  else do
    let init : GlobalsBuckets :=
      { constant_retain_globals :=
          (((Node.new "GlobalVars").attr "constant" "true").attr "retain" "true")
        constant_globals := (Node.new "GlobalVars").attr "constant" "true"
        retain_globals := (Node.new "GlobalVars").attr "retain" "true"
        normal_globals := Node.new "GlobalVars" }
    let out ← genGlobalsBlocks gp unit_name schema_path cu.global_vars init preused
    let buckets := out.1
    let resource_node :=
      (((((Node.new RESOURCE).attr "name" (unit_name ++ "_" ++ RESOURCE)).attr
        "resourceTypeName" "").child
        buckets.constant_retain_globals).child
        buckets.constant_globals).child
        buckets.retain_globals |>.child buckets.normal_globals
    let configuration_node :=
      ((Node.new CONFIGURATION).attr "name"
        (unit_name ++ "_" ++ CONFIGURATION)).child resource_node
    match output_root.updateNamed INSTANCES
        (fun g => some (g.child configuration_node)) with
    | none => .ok none
    | some root2 => .ok (some (root2, out.2))

/-! ## The custom-types pass (`generate_custom_types`) -/

/-- `parse_enum_expression` (`xml_gen.rs`): the left side must be a
member-identifier reference, the right side a literal or a binary
expression whose right side is a literal; every other shape panics. -/
def parse_enum_expression (input : Assignment) :
    Except GenError NameAndInitialValue :=
  match input.left with
  | .refMemberIdent enum_variant_name =>
      match input.right with
      | .lit litStr => .ok ⟨enum_variant_name, litStr⟩
      | .binLit litStr => .ok ⟨enum_variant_name, litStr⟩
      | _ => .error .badEnumAst
  | .otherLeft => .error .badEnumAst

/-- The extraction of enum candidates from the `elements` node: an
`ExpressionList` of assignments, or one assignment; anything else
panics. -/
def extractEnumerators :
    EnumElements → Except GenError (List NameAndInitialValue)
  | .assignment a => do
      let x ← parse_enum_expression a
      .ok [x]
  | .exprList elems =>
      elems.mapM (fun e =>
        match e with
        | .assignment a => parse_enum_expression a
        | .otherElem => .error .badEnumAst)
  | .otherElements => .error .badEnumAst

/-- The member loop of the struct branch of `generate_custom_types`:
one `Member` (name plus `Type/TypeName`) per field with a resolvable
type name, with the vendor string-type rewrite. -/
def structMembers (gp : GenerationParameters) :
    List Variable → List Node
  | [] => []
  | v :: rest =>
      match v.data_type_declaration with
      | none => structMembers gp rest
      | some tn =>
          let typename :=
            if strContainsStr (strToLower tn) "string" && gp.output_xml_omron then
              "String[1986]"
            else tn
          let typename_node := (Node.new "TypeName").contentSet typename
          let type_node := (Node.new "Type").child typename_node
          let member_node :=
            ((Node.new "Member").attr "name" v.name).child type_node
          member_node :: structMembers gp rest

/-- One user type of `generate_custom_types`: `.ok none` when the
declaration is skipped (struct without members, anonymous type,
unsupported shape). -/
def genOneUserType (gp : GenerationParameters) (t : UserTypeDeclaration) :
    Except GenError (Option Node) :=
  match t.data_type with
  | .structType name vars =>
      match name with
      | none => .ok none
      | some unwrapped_name =>
          let spec_node :=
            ((Node.new "UserDefinedTypeSpec").attr "xsi:type"
              "StructTypeSpec").childrenAdd (structMembers gp vars)
          if spec_node.children.length = 0 then .ok none
          else
            .ok (some (((Node.new "DataTypeDecl").attr "name"
              unwrapped_name).child spec_node))
  | .enumType name numeric_type elements =>
      match name with
      | none => .ok none
      | some unwrapped_enum_type => do
          let enumerators ← extractEnumerators elements
          let base_node := (Node.new "BaseType").contentSet numeric_type
          let formatted ← format_enum_initials enumerators
          let spec_node :=
            (((Node.new "UserDefinedTypeSpec").attr "xsi:type"
              "EnumTypeWithNamedValueSpec").childrenAdd formatted).child base_node
          .ok (some (((Node.new "DataTypeDecl").attr "name"
            unwrapped_enum_type).child spec_node))
  | .otherType => .ok none

/-- The user-type loop: skip compiler-generated declarations, collect
the produced `DataTypeDecl` nodes in order. -/
def genUserTypesLoop (gp : GenerationParameters) :
    List UserTypeDeclaration → Except GenError (List Node)
  | [] => .ok []
  | t :: rest =>
      if t.location.span = CodeSpan.none then genUserTypesLoop gp rest
      else do
        let one ← genOneUserType gp t
        let out ← genUserTypesLoop gp rest
        match one with
        | none => .ok out
        | some d => .ok (d :: out)

/-- `generate_custom_types` (`xml_gen.rs`): emit one `DataTypeDecl` per
eligible user-defined type under the `Types/GlobalNamespace` anchor.
`.ok none` embeds the discarded anchor-not-found error. -/
def generate_custom_types (gp : GenerationParameters)
    (cu : CompilationUnit) (output_root : Node) :
    Except GenError (Option Node) := do
  let decls ← genUserTypesLoop gp cu.user_types
  match updateGlobalNamespace output_root (fun g => g.childrenAdd decls) with
  | none => .ok none
  | some root2 => .ok (some root2)

/-! ## The procedural-units pass (`generate_pous`) -/

/-- Modelled from the spec: the tag names of the typed element builders
`SPouInfo`, `SResultType`, `SParameters`, `SInputVars`, `SInoutVars`,
`SOutputVars`, `SExternalVars`, `STempVars`, `SGenVariable` and
`SAddress` used by `generate_pous` / `generate_variable_element` are
declared in a part of `serializer.rs` that is not in the repository
snapshot; following the spec's element vocabulary ("ResultType built
from the declared return type's name", "Variable element", parameter /
external / temp variable containers), each builder is given the tag
obtained by dropping the `S` prefix of its Rust type name.  `RESULT_TYPE`
is the one of these tags a claim mentions by name. -/
def RESULT_TYPE : String := "ResultType"

/-- `grab_file_statement_from_span` (`xml_gen.rs`): read the byte range
`[start, end)` of the named file.  The file system is an explicit
oracle `fs` from path to content; a missing file or a short read is a
panic (`expect`), a negative range length (`checked_sub` failing) is a
soft `none`.  Byte offsets are embedded as character offsets. -/
def grab_file_statement_from_span (fs : String → Option String)
    (file_path : String) (startOffset endOffset : Nat) :
    Except GenError (Option String) :=
  match fs file_path with
  | none => .error .fileRead
  | some content =>
      if endOffset < startOffset then .ok none
      else if content.data.length < endOffset then .error .fileRead
      else .ok (some (String.mk
        ((content.data.drop startOffset).take (endOffset - startOffset))))

/-- The eleven variable containers of one procedural unit. -/
structure PouContainers where
  input_vars : Node
  inout_vars : Node
  output_vars : Node
  externals : Node
  constant_externals : Node
  pvars : Node
  constant_vars : Node
  retain_vars : Node
  constant_retain_vars : Node
  temp_vars : Node
  constant_temp_vars : Node

/-- The initial containers of `generate_pous` (tags modelled from the
spec as documented at `RESULT_TYPE`). -/
def initContainers : PouContainers :=
  { input_vars := Node.new "InputVars"
    inout_vars := Node.new "InoutVars"
    output_vars := Node.new "OutputVars"
    externals := Node.new "ExternalVars"
    constant_externals := (Node.new "ExternalVars").attr "constant" "true"
    pvars := (Node.new "SVars").attr "accessSpecifier" "private"
    constant_vars :=
      (((Node.new "SVars").attr "accessSpecifier" "private").attr "constant" "true")
    retain_vars :=
      (((Node.new "SVars").attr "accessSpecifier" "private").attr "retain" "true")
    constant_retain_vars :=
      ((((Node.new "SVars").attr "accessSpecifier" "private").attr
        "constant" "true").attr "retain" "true")
    temp_vars := Node.new "TempVars"
    constant_temp_vars := (Node.new "TempVars").attr "constant" "true" }

/-- The container dispatch of the block/variable loop in
`generate_pous` (the `match current_block.kind` arms; a `Global` kind
falls into the wildcard arm and the node is dropped). -/
def placeVariableNode (blk : VariableBlock) (c : PouContainers)
    (variable_node : Node) : PouContainers :=
  match blk.kind with
  | .localK =>
      if blk.constant ∧ blk.retain then
        { c with constant_retain_vars := c.constant_retain_vars.child variable_node }
      else if blk.constant then
        { c with constant_vars := c.constant_vars.child variable_node }
      else if blk.retain then
        { c with retain_vars := c.retain_vars.child variable_node }
      else
        { c with pvars := c.pvars.child variable_node }
  | .temp =>
      if blk.constant then
        { c with constant_temp_vars := c.constant_temp_vars.child variable_node }
      else
        { c with temp_vars := c.temp_vars.child variable_node }
  | .input => { c with input_vars := c.input_vars.child variable_node }
  | .output => { c with output_vars := c.output_vars.child variable_node }
  | .inOut => { c with inout_vars := c.inout_vars.child variable_node }
  | .external =>
      if blk.constant then
        { c with constant_externals := c.constant_externals.child variable_node }
      else
        { c with externals := c.externals.child variable_node }
  | .global _ => c

/-- The `use_order_attr` computation of the block/variable loop
(`xml_gen.rs` line 448): every block kind other than `Local` and
`External` is treated as order-sensitive. -/
def use_order_attr (kind : VariableBlockType) : Bool :=
  kind ≠ VariableBlockType.localK ∧ kind ≠ VariableBlockType.external

/-- The variable loop over one block of a procedural unit: thread the
order set and the ghost assignment trace, skipping compiler-generated
variables and those without a resolvable type. -/
def genPouVarsLoop (gp : GenerationParameters)
    (pou_name schema_path : String) (blk : VariableBlock) :
    List Variable → Nat → PouContainers → List (String × Nat) →
    Except GenError (PouContainers × List (String × Nat) × List (String × Nat))
  | [], _, conts, preused => .ok (conts, preused, [])
  | v :: rest, c, conts, preused =>
      if v.location.span = CodeSpan.none then
        genPouVarsLoop gp pou_name schema_path blk rest (c + 1) conts preused
      else do
        let network_publish :=
          match blk.kind with
          | .global network_publish_mode => network_publish_mode
          | _ => "DoNotPublish"
        let r ← generate_variable_element v gp pou_name schema_path
          network_publish preused c (use_order_attr blk.kind)
        match r with
        | none =>
            genPouVarsLoop gp pou_name schema_path blk rest (c + 1) conts preused
        | some res => do
            let conts' := placeVariableNode blk conts res.node
            let out ← genPouVarsLoop gp pou_name schema_path blk rest (c + 1)
              conts' res.preused
            .ok (out.1, out.2.1, res.assigned.toList ++ out.2.2)

/-- The block loop of `generate_pous`. -/
def genPouBlocksLoop (gp : GenerationParameters)
    (pou_name schema_path : String) :
    List VariableBlock → PouContainers → List (String × Nat) →
    Except GenError (PouContainers × List (String × Nat) × List (String × Nat))
  | [], conts, preused => .ok (conts, preused, [])
  | blk :: rest, conts, preused => do
      let out ← genPouVarsLoop gp pou_name schema_path blk blk.vars 0 conts preused
      let final ← genPouBlocksLoop gp pou_name schema_path rest out.1 out.2.1
      .ok (final.1, final.2.1, out.2.2 ++ final.2.2)

/-- The element assembly at the end of `generate_pous`: the `match
current_impl.pou_type` choosing `Program` / `Function` /
`FunctionBlock` and their schema-mandated child order.  The
`otherKind` arm mirrors the source's wildcard arm, which is dead code
(the loop has already skipped unsupported kinds). -/
def buildPouElement (kind : PouType) (name_value : String)
    (adddata_node resulttype_node parameters_node main_body : Node)
    (conts : PouContainers) : Option Node :=
  match kind with
  | .program => some
      ((((((((((Node.new "Program").attr "name" name_value).child
        adddata_node).child conts.externals).child
        conts.constant_externals).child conts.pvars).child
        conts.constant_vars).child conts.retain_vars).child
        conts.constant_retain_vars).child main_body)
  | .function => some
      ((((((((((Node.new "Function").attr "name" name_value).child
        adddata_node).child resulttype_node).child parameters_node).child
        conts.externals).child conts.constant_externals).child
        conts.temp_vars).child conts.constant_temp_vars).child main_body)
  | .functionBlock => some
      ((((((((Node.new "FunctionBlock").attr "name" name_value).child
        adddata_node).child parameters_node).child conts.externals).child
        conts.constant_externals).child conts.pvars).child main_body)
  | .otherKind => none

/-- One implementation of the loop in `generate_pous`: find the
declared metadata (a panic when absent), filter unsupported kinds and
external linkage, extract the body text, classify every variable and
assemble the final element.  `.ok none` = this implementation
contributes nothing; otherwise the new element together with the
updated order set and the ghost trace of claimed orders. -/
def processImpl (gp : GenerationParameters) (cu : CompilationUnit)
    (schema_path now : String) (fs : String → Option String)
    (current_impl : Implementation) (preused : List (String × Nat)) :
    Except GenError (Option (Node × List (String × Nat) × List (String × Nat))) := do
  match cu.pous.find? (fun a => a.name == current_impl.name) with
  | none => .error .missingMetadata
  | some matching_metadata =>
      if current_impl.pou_type ≠ PouType.program ∧
          current_impl.pou_type ≠ PouType.function ∧
          current_impl.pou_type ≠ PouType.functionBlock then
        .ok none
      else if current_impl.linkage = LinkageType.external then
        .ok none
      else do
        let maybe_text : Except GenError (Option String) :=
          match current_impl.location.span with
          | .range startOffset endOffset =>
              match current_impl.location.file with
              | .file file_path =>
                  grab_file_statement_from_span fs file_path startOffset endOffset
              | _ => .ok none
          | _ => .ok none
        let text ← maybe_text
        match text with
        | none => .ok none
        | some procedure_text => do
            let info_node :=
              ((Node.new "PouInfo").attr "version" "0.0.0").attr
                "creationDateTime" now
            let data_node :=
              (((Node.new "Data").attr "name" schema_path).attr
                "handleUnknown" "discard").child info_node
            let adddata_node := (Node.new "AddData").child data_node
            let resulttype_node := Node.new RESULT_TYPE
            let typename_node := Node.new "TypeName"
            let typename_node :=
              if current_impl.pou_type = PouType.function ∨
                  current_impl.pou_type = PouType.functionBlock then
                match matching_metadata.return_type with
                | some (some type_name) => typename_node.contentSet type_name
                | _ => typename_node.contentSet "BOOL"
              else
                typename_node.contentSet "BOOL"
            let resulttype_node := resulttype_node.child typename_node
            let out ← genPouBlocksLoop gp matching_metadata.name schema_path
              matching_metadata.variable_blocks initContainers preused
            let conts := out.1
            let parameters_node :=
              (((Node.new "Parameters").child conts.input_vars).child
                conts.inout_vars).child conts.output_vars
            let st_element := Node.new "ST"
            let st_element :=
              if procedure_text.length > 0 then st_element.contentSet procedure_text
              else st_element
            let body_content :=
              ((Node.new "BodyContent").attr "xsi:type" "ST").child st_element
            let main_body := (Node.new "MainBody").child body_content
            match buildPouElement current_impl.pou_type current_impl.name
                adddata_node resulttype_node parameters_node main_body conts with
            | none => .ok none
            | some chosen_element => .ok (some (chosen_element, out.2.1, out.2.2))

/-- The implementation loop of `generate_pous`: collect the produced
elements in order, threading the order set and the trace. -/
def genImplsLoop (gp : GenerationParameters) (cu : CompilationUnit)
    (schema_path now : String) (fs : String → Option String) :
    List Implementation → List (String × Nat) →
    Except GenError (List Node × List (String × Nat) × List (String × Nat))
  | [], preused => .ok ([], preused, [])
  | impl :: rest, preused => do
      let one ← processImpl gp cu schema_path now fs impl preused
      match one with
      | none => genImplsLoop gp cu schema_path now fs rest preused
      | some (elem, preused2, tr) => do
          let out ← genImplsLoop gp cu schema_path now fs rest preused2
          .ok (elem :: out.1, out.2.1, tr ++ out.2.2)

/-- `generate_pous` (`xml_gen.rs`): translate every supported
implementation of the unit into a `Program` / `Function` /
`FunctionBlock` element under the `Types/GlobalNamespace` anchor.
`.ok none` embeds the discarded anchor-not-found error; the anchors are
located before any implementation is processed, exactly as in the
source. -/
def generate_pous (gp : GenerationParameters) (cu : CompilationUnit)
    (schema_path now : String) (fs : String → Option String)
    (param_order : List (String × Nat)) (output_root : Node) :
    Except GenError
      (Option (Node × List (String × Nat) × List (String × Nat))) :=
  let anchors :=
    (output_root.children.find? (fun a => a.name == TYPES)).bind
      (fun t => t.children.find? (fun a => a.name == GLOBAL_NAMESPACE))
  if anchors.isNone then .ok none
  else do
    let out ← genImplsLoop gp cu schema_path now fs cu.implementations param_order
    match updateGlobalNamespace output_root (fun g => g.childrenAdd out.1) with
    | none => .ok none
    | some root2 => .ok (some (root2, out.2.1, out.2.2))

/-! ## The whole generation run (`parse_project_into_nodetree`) -/

/-- The state threaded through one generation run: the run-wide order
set (`param_order` in the source, created once per run), the document
tree, and the ghost trace of all `(pou_name, order)` keys claimed so
far. -/
structure GenState where
  param_order : List (String × Nat)
  root : Node
  trace : List (String × Nat)

/-- One unit of the loop in `parse_project_into_nodetree`: units whose
file name does not end in `.st` (case-insensitively) are skipped
whole; otherwise the three passes run in order, each one's `Err`
discarded (`let _ = …`). -/
def processUnit (gp : GenerationParameters) (schema_path now : String)
    (fs : String → Option String) (st : GenState) (cu : CompilationUnit) :
    Except GenError GenState :=
  let unit_name := cu.file.getD ""
  if strEndsWith (strToLower unit_name) ".st" = false then .ok st
  else do
    let g ← generate_globals gp cu unit_name schema_path st.param_order st.root
    let st1 : GenState :=
      match g with
      | none => st
      | some (root2, order2) => { st with root := root2, param_order := order2 }
    let ct ← generate_custom_types gp cu st1.root
    let st2 : GenState :=
      match ct with
      | none => st1
      | some root3 => { st1 with root := root3 }
    let p ← generate_pous gp cu schema_path now fs st2.param_order st2.root
    match p with
    | none => .ok st2
    | some (root4, order4, tr) =>
        .ok { param_order := order4, root := root4, trace := st2.trace ++ tr }

/-- The unit loop of `parse_project_into_nodetree`. -/
def runUnits (gp : GenerationParameters) (schema_path now : String)
    (fs : String → Option String) :
    List CompilationUnit → GenState → Except GenError GenState
  | [], st => .ok st
  | cu :: rest, st => do
      let st2 ← processUnit gp schema_path now fs st cu
      runUnits gp schema_path now fs rest st2

/-- `parse_project_into_nodetree` (`xml_gen.rs`): create the run-wide
order set once, walk the units, and return the finished tree (the
model stops where the source hands the tree to `write_xml_file`).  The
ghost `trace` field records every `(pou_name, orderWithinParamSet)`
key claimed during the run. -/
def parse_project_into_nodetree (gp : GenerationParameters)
    (units : List CompilationUnit) (schema_path now : String)
    (fs : String → Option String) (output_root : Node) :
    Except GenError GenState :=
  runUnits gp schema_path now fs units
    { param_order := [], root := output_root, trace := [] }

/-- `get_omron_template` (`plc_xmlgen/src/xml_gen.rs`): the skeleton
document.  The `creationDateTime` produced by `Local::now()` is the
explicit `now` parameter. -/
def get_omron_template (now : String) : Node :=
  ((((((((((Node.new "Project").attr "xmlns:xsi"
    "http://www.w3.org/2001/XMLSchema-instance").attr "xmlns:smcext"
    "https://www.ia.omron.com/Smc").attr "xsi:schemaLocation"
    "https://www.ia.omron.com/Smc IEC61131_10_Ed1_0_SmcExt1_0_Spc1_0.xsd").attr
    "schemaVersion" "1").attr "xmlns"
    "www.iec.ch/public/TC65SC65BWG7TF10").child
    ((((Node.new "FileHeader").attr "companyName" "OMRON Corporation").attr
      "productName" "Sysmac Studio").attr "productVersion" "1.30.0.0")).child
    (((Node.new "ContentHeader").attr "name" "Sample").attr
      "creationDateTime" now)).child
    ((Node.new TYPES).child (Node.new GLOBAL_NAMESPACE))).child
    (Node.new INSTANCES))

/-- Whether a node carries an attribute with the given key. -/
def Node.hasAttrKey (n : Node) (key : String) : Bool :=
  n.attributes.any (fun p => p.1 == key)

/-- Whether any node of the tree carries an attribute with the given
key. -/
def Node.hasAttrDeep (n : Node) (key : String) : Bool :=
  n.hasAttrKey key ||
    (n.children.attach.map (fun c => Node.hasAttrDeep c.1 key)).any id
termination_by n
decreasing_by
  have hmem := c.2
  have h1 : sizeOf c.1 < sizeOf n.children := List.sizeOf_lt_of_mem hmem
  have h2 : sizeOf n.children < sizeOf n := by
    cases n
    simp only [Node.mk.sizeOf_spec]
    omega
  omega

/-- How many nodes of the tree carry the given tag name. -/
def Node.countNamed (n : Node) (target : String) : Nat :=
  (if n.name == target then 1 else 0) +
    ((n.children.attach.map (fun c => Node.countNamed c.1 target)).foldl (· + ·) 0)
termination_by n
decreasing_by
  have hmem := c.2
  have h1 : sizeOf c.1 < sizeOf n.children := List.sizeOf_lt_of_mem hmem
  have h2 : sizeOf n.children < sizeOf n := by
    cases n
    simp only [Node.mk.sizeOf_spec]
    omega
  omega

/-! ## Theorems -/

/-- C2: the three concrete resolver cases of spec §8.  Input
`[(A,"0"),(B,"0"),(C,"1")]` yields values `A="0", B="1", C="2"`;
`[(X,"5"),(Y,"5"),(Z,"5")]` yields `"5","6","7"`;
`[(NEG,"-1"),(NEG2,"-1")]` yields `"-1","0"`. -/
theorem C2_enum_concrete_cases :
    format_enum_initials [⟨"A", "0"⟩, ⟨"B", "0"⟩, ⟨"C", "1"⟩] =
      .ok [enumeratorNode ⟨"A", "0"⟩, enumeratorNode ⟨"B", "1"⟩,
           enumeratorNode ⟨"C", "2"⟩] ∧
    format_enum_initials [⟨"X", "5"⟩, ⟨"Y", "5"⟩, ⟨"Z", "5"⟩] =
      .ok [enumeratorNode ⟨"X", "5"⟩, enumeratorNode ⟨"Y", "6"⟩,
           enumeratorNode ⟨"Z", "7"⟩] ∧
    format_enum_initials [⟨"NEG", "-1"⟩, ⟨"NEG2", "-1"⟩] =
      .ok [enumeratorNode ⟨"NEG", "-1"⟩, enumeratorNode ⟨"NEG2", "0"⟩] :=
  ⟨rfl, rfl, rfl⟩

/-- C4 counterexample: with tracker `{(P,0),(P,1)}` and start index `0`,
the code's search claims order `3` (probes 0, 1, then 0+1+2 = 3), while
the spec's successive-integer probing would claim `2`. -/
theorem C4_counterexample :
    searchOrder "P" 0 [("P", 0), ("P", 1)] =
      .ok (3, [("P", 3), ("P", 0), ("P", 1)]) ∧
    specSuccessiveSearch "P" 3 0 [("P", 0), ("P", 1)] = .ok 2 ∧
    (3 : Nat) ≠ 2 :=
  ⟨rfl, rfl, by decide⟩

/-- C6 counterexample: at start index `usize::MAX` with `(p, usize::MAX)`
already claimed, the order search silently wraps around to claim `0`
instead of failing — its additions are not checked. -/
theorem C6_counterexample :
    searchOrder "p" (U64 - 1) [("p", U64 - 1)] =
      .ok (0, [("p", 0), ("p", U64 - 1)]) :=
  rfl

/-- The concrete node refuting C8's content rule: an element with one
attribute and a text payload. -/
def c8Node : Node := ((Node.new "a").attr "k" "v").contentSet "t"

/-- C8 counterexample: serializing a non-closed node with content
emits `<a>t</a>` — the attribute `k="v"` is dropped from the opening
tag, contradicting the claim's "opening tag with the node's
attributes". -/
theorem C8_counterexample :
    c8Node.attributes = [("k", "v")] ∧
    c8Node.closed = false ∧
    c8Node.content = some "t" ∧
    Node.serialize c8Node 0 = "<a>t</a>\n" ∧
    Node.serialize c8Node 0 ≠ "<a k=\"v\">t</a>\n" := by
  have hs : Node.serialize c8Node 0 = "<a>t</a>\n" := by
    rw [Node.serialize]
    simp [c8Node, Node.contentSet, Node.attr, Node.new, Node.indentStr,
      Node.serializeContent]
  refine ⟨rfl, rfl, rfl, hs, ?_⟩
  rw [hs]
  decide
/-- Helper: a value accepted by the conflict probe loop is fresh with
respect to the `viewed_values` set. -/
theorem probeEnumValue_ok_fresh (parsed : Int) (viewed : List String) :
    ∀ fuel increment s, probeEnumValue parsed viewed fuel increment = .ok s →
      s ∉ viewed := by
  intro fuel
  induction fuel with
  | zero => intro increment s h; simp [probeEnumValue] at h
  | succ n ih =>
      intro increment s h
      rw [probeEnumValue] at h
      split at h
      · exact absurd h (by simp)
      · simp only [] at h
        split at h
        next => exact ih _ _ h
        next hc =>
          cases h
          simpa using hc

/-- Helper: the rewriting pass of `format_enum_initials` preserves
length and the name sequence, returns pairwise-distinct value strings,
and every output value is fresh with respect to the incoming
`viewed_values` set. -/
theorem resolve_props :
    ∀ (l : List NameAndInitialValue) (viewed : List String)
      (out : List NameAndInitialValue) (v2 : List String),
    resolveEnumValues viewed l = .ok (out, v2) →
    out.length = l.length ∧
    out.map (fun x => x.name) = l.map (fun x => x.name) ∧
    (out.map (fun x => x.initial_value)).Nodup ∧
    (∀ s ∈ out.map (fun x => x.initial_value), s ∉ viewed) := by
  intro l
  induction l with
  | nil =>
      intro viewed out v2 h
      rw [resolveEnumValues] at h
      cases h
      simp
  | cons x rest ih =>
      intro viewed out v2 h
      rw [resolveEnumValues] at h
      split at h
      next hmem =>
        cases hp : parseI32 x.initial_value with
        | none => rw [hp] at h; exact absurd h (by simp)
        | some parsed =>
            rw [hp] at h
            dsimp only at h
            cases hprobe : probeEnumValue parsed viewed (viewed.length + 1) 1 with
            | error e =>
                rw [hprobe] at h
                exact absurd h (by simp [bind, Except.bind])
            | ok newStr =>
                rw [hprobe] at h
                simp only [bind, Except.bind] at h
                cases hres : resolveEnumValues (newStr :: viewed) rest with
                | error e =>
                    rw [hres] at h
                    exact absurd h (by simp)
                | ok pr =>
                    rw [hres] at h
                    simp only [Except.ok.injEq, Prod.mk.injEq] at h
                    obtain ⟨h1, h2⟩ := h
                    subst h1
                    obtain ⟨ih1, ih2, ih3, ih4⟩ := ih _ _ _ hres
                    have hfresh := probeEnumValue_ok_fresh parsed viewed _ _ _ hprobe
                    refine ⟨by simpa using ih1, by simpa using ih2, ?_, ?_⟩
                    · simp only [List.map_cons, List.nodup_cons]
                      refine ⟨?_, ih3⟩
                      intro hn
                      exact (ih4 _ hn) (List.mem_cons_self _ _)
                    · intro s hs
                      simp only [List.map_cons, List.mem_cons] at hs
                      rcases hs with hs | hs
                      · subst hs; exact hfresh
                      · intro hv
                        exact (ih4 _ hs) (List.mem_cons_of_mem _ hv)
      next hmem =>
        cases hres : resolveEnumValues (x.initial_value :: viewed) rest with
        | error e =>
            rw [hres] at h
            exact absurd h (by simp [bind, Except.bind])
        | ok pr =>
            rw [hres] at h
            simp only [bind, Except.bind, Except.ok.injEq, Prod.mk.injEq] at h
            obtain ⟨h1, h2⟩ := h
            subst h1
            obtain ⟨ih1, ih2, ih3, ih4⟩ := ih _ _ _ hres
            refine ⟨by simpa using ih1, by simpa using ih2, ?_, ?_⟩
            · simp only [List.map_cons, List.nodup_cons]
              refine ⟨?_, ih3⟩
              intro hn
              exact (ih4 _ hn) (List.mem_cons_self _ _)
            · intro s hs
              simp only [List.map_cons, List.mem_cons] at hs
              rcases hs with hs | hs
              · subst hs
                simpa using hmem
              · intro hv
                exact (ih4 _ hs) (List.mem_cons_of_mem _ hv)

/-- Helper: the `name` attribute of a built `Enumerator` node. -/
theorem enumeratorNode_getAttr_name (x : NameAndInitialValue) :
    (enumeratorNode x).getAttr "name" = some x.name := rfl

/-- Helper: the `value` attribute of a built `Enumerator` node. -/
theorem enumeratorNode_getAttr_value (x : NameAndInitialValue) :
    (enumeratorNode x).getAttr "value" = some x.initial_value := rfl

/-- C1: whenever `format_enum_initials` returns (it panics on `i32`
overflow or malformed values — see C6), the output has the same length
as the input, carries the input names in the same order in its `name`
attributes, and its `value` attributes are pairwise distinct; and the
function is deterministic: equal inputs give the identical output. -/
theorem C1_enum_resolver_props (l : List NameAndInitialValue) (nodes : List Node)
    (h : format_enum_initials l = .ok nodes) :
    nodes.length = l.length ∧
    nodes.map (fun n => n.getAttr "name") = l.map (fun x => some x.name) ∧
    (nodes.map (fun n => n.getAttr "value")).Nodup ∧
    (∀ l2, l2 = l → format_enum_initials l2 = .ok nodes) := by
  rw [format_enum_initials] at h
  cases hres : resolveEnumValues [] l with
  | error e =>
      rw [hres] at h
      exact absurd h (by simp [bind, Except.bind])
  | ok pr =>
      rw [hres] at h
      simp only [bind, Except.bind, Except.ok.injEq] at h
      subst h
      obtain ⟨ih1, ih2, ih3, _⟩ := resolve_props l [] pr.1 pr.2 hres
      refine ⟨by simpa using ih1, ?_, ?_, ?_⟩
      · rw [List.map_map]
        have : (Node.getAttr · "name") ∘ enumeratorNode =
            fun x : NameAndInitialValue => some x.name := by
          funext x
          exact enumeratorNode_getAttr_name x
        rw [show (fun n : Node => n.getAttr "name") ∘ enumeratorNode =
            fun x : NameAndInitialValue => some x.name from this]
        calc List.map (fun x : NameAndInitialValue => some x.name) pr.1
            = List.map some (List.map (fun x => x.name) pr.1) := by
              rw [List.map_map]; rfl
          _ = List.map some (List.map (fun x => x.name) l) := by rw [ih2]
          _ = List.map (fun x : NameAndInitialValue => some x.name) l := by
              rw [List.map_map]; rfl
      · rw [List.map_map]
        have heq : (fun n : Node => n.getAttr "value") ∘ enumeratorNode =
            some ∘ (fun x : NameAndInitialValue => x.initial_value) := by
          funext x
          exact enumeratorNode_getAttr_value x
        rw [heq, ← List.map_map]
        exact ih3.map (Option.some_injective _)
      · intro l2 h2
        subst h2
        rw [format_enum_initials, hres]
        rfl


/-- Witness for C1 at the spec's `[(A,"0"),(B,"0"),(C,"1")]` input. -/
theorem C1_enum_resolver_props_witness :
    ([enumeratorNode ⟨"A", "0"⟩, enumeratorNode ⟨"B", "1"⟩,
      enumeratorNode ⟨"C", "2"⟩] : List Node).length =
      ([⟨"A", "0"⟩, ⟨"B", "0"⟩, ⟨"C", "1"⟩] : List NameAndInitialValue).length ∧
    ([enumeratorNode ⟨"A", "0"⟩, enumeratorNode ⟨"B", "1"⟩,
      enumeratorNode ⟨"C", "2"⟩] : List Node).map (fun n => n.getAttr "name") =
      ([⟨"A", "0"⟩, ⟨"B", "0"⟩, ⟨"C", "1"⟩] : List NameAndInitialValue).map
        (fun x => some x.name) ∧
    (([enumeratorNode ⟨"A", "0"⟩, enumeratorNode ⟨"B", "1"⟩,
      enumeratorNode ⟨"C", "2"⟩] : List Node).map
        (fun n => n.getAttr "value")).Nodup ∧
    (∀ l2, l2 = ([⟨"A", "0"⟩, ⟨"B", "0"⟩, ⟨"C", "1"⟩] :
        List NameAndInitialValue) →
      format_enum_initials l2 =
        .ok [enumeratorNode ⟨"A", "0"⟩, enumeratorNode ⟨"B", "1"⟩,
             enumeratorNode ⟨"C", "2"⟩]) :=
  C1_enum_resolver_props [⟨"A", "0"⟩, ⟨"B", "0"⟩, ⟨"C", "1"⟩]
    [enumeratorNode ⟨"A", "0"⟩, enumeratorNode ⟨"B", "1"⟩,
     enumeratorNode ⟨"C", "2"⟩] rfl

/-- Helper: the relation between the order set before and after a
generation step with ghost trace `tr`: the set only grows, the new
claims are distinct, and each was free before and claimed after. -/
def StepTrace (S S2 tr : List (String × Nat)) : Prop :=
  (∀ p ∈ S, p ∈ S2) ∧ tr.Nodup ∧ (∀ p ∈ tr, p ∈ S2 ∧ p ∉ S)

/-- Helper: the empty step. -/
theorem StepTrace.rfl {S : List (String × Nat)} : StepTrace S S [] :=
  ⟨fun _ h => h, List.nodup_nil, fun _ h => absurd h (List.not_mem_nil _)⟩

/-- Helper: steps compose; the concatenated traces stay duplicate-free
because the first step claims into the set the second step avoids. -/
theorem StepTrace.comp {S S1 S2 t1 t2} (h1 : StepTrace S S1 t1)
    (h2 : StepTrace S1 S2 t2) : StepTrace S S2 (t1 ++ t2) := by
  obtain ⟨m1, n1, f1⟩ := h1
  obtain ⟨m2, n2, f2⟩ := h2
  refine ⟨fun p hp => m2 _ (m1 _ hp), ?_, ?_⟩
  · rw [List.nodup_append]
    refine ⟨n1, n2, ?_⟩
    intro p hp1 hp2
    exact (f2 _ hp2).2 ((f1 _ hp1).1)
  · intro p hp
    rcases List.mem_append.mp hp with hp | hp
    · exact ⟨m2 _ (f1 _ hp).1, (f1 _ hp).2⟩
    · refine ⟨(f2 _ hp).1, fun hs => (f2 _ hp).2 (m1 _ hs)⟩

/-- Helper: a successful probe loop claims a key that was free and
conses it onto the set. -/
theorem searchOrderGo_ok (pou : String) (S : List (String × Nat)) :
    ∀ fuel iter inc o S2,
    searchOrderGo pou fuel iter inc S = .ok (o, S2) →
    (pou, o) ∉ S ∧ S2 = (pou, o) :: S := by
  intro fuel
  induction fuel with
  | zero => intro iter inc o S2 h; simp [searchOrderGo] at h
  | succ n ih =>
      intro iter inc o S2 h
      rw [searchOrderGo] at h
      split at h
      next => exact ih _ _ _ _ h
      next hc =>
        simp only [Except.ok.injEq, Prod.mk.injEq] at h
        obtain ⟨h1, h2⟩ := h
        subst h1
        subst h2
        exact ⟨by simpa using hc, Eq.refl _⟩

/-- Helper: `searchOrder` is one `StepTrace` step. -/
theorem searchOrder_stepTrace (pou : String) (order : Nat)
    (S : List (String × Nat)) (o : Nat) (S2 : List (String × Nat))
    (h : searchOrder pou order S = .ok (o, S2)) :
    StepTrace S S2 [(pou, o)] := by
  obtain ⟨hni, hs⟩ := searchOrderGo_ok pou S _ _ _ _ _ h
  subst hs
  exact ⟨fun p hp => List.mem_cons_of_mem _ hp, List.nodup_singleton _,
    fun p hp => by
      rcases List.mem_singleton.mp hp with rfl
      exact ⟨List.mem_cons_self _ _, hni⟩⟩

/-- Helper: `generate_variable_element` performs at most one claim and
threads the set correctly. -/
theorem gve_ok_stepTrace (v : Variable) (gp : GenerationParameters)
    (pn sp np : String) (S : List (String × Nat)) (order : Nat) (b : Bool)
    (r : Option VarElemResult)
    (h : generate_variable_element v gp pn sp np S order b = .ok r) :
    ∀ res, r = some res → StepTrace S res.preused res.assigned.toList := by
  intro res hr
  subst hr
  rw [generate_variable_element] at h
  cases hd : v.data_type_declaration with
  | none => rw [hd] at h; exact absurd h (by simp)
  | some tn =>
      rw [hd] at h
      dsimp only at h
      split at h
      next hb =>
        cases hso : searchOrder pn order S with
        | error e =>
            rw [hso] at h
            exact absurd h (by simp [bind, Except.bind])
        | ok pr =>
            rw [hso] at h
            simp only [bind, Except.bind, Except.ok.injEq, Option.some.injEq] at h
            have hpre : res.preused = pr.2 := by rw [← h]
            have hasg : res.assigned = some (pn, pr.1) := by rw [← h]
            rw [hpre, hasg]
            exact searchOrder_stepTrace pn order S pr.1 pr.2 (by rw [hso])
      next hb =>
        simp only [bind, Except.bind, Except.ok.injEq, Option.some.injEq] at h
        have hpre : res.preused = S := by rw [← h]
        have hasg : res.assigned = none := by rw [← h]
        rw [hpre, hasg]
        exact StepTrace.rfl

/-- Helper: the per-block variable loop is a `StepTrace` step. -/
theorem genPouVarsLoop_stepTrace (gp : GenerationParameters)
    (pn sp : String) (blk : VariableBlock) :
    ∀ (vars : List Variable) (c : Nat) (conts : PouContainers)
      (S : List (String × Nat)) out,
    genPouVarsLoop gp pn sp blk vars c conts S = .ok out →
    StepTrace S out.2.1 out.2.2 := by
  intro vars
  induction vars with
  | nil =>
      intro c conts S out h
      rw [genPouVarsLoop] at h
      cases h
      exact StepTrace.rfl
  | cons v rest ih =>
      intro c conts S out h
      rw [genPouVarsLoop] at h
      split at h
      next => exact ih _ _ _ _ h
      next =>
        dsimp only at h
        cases hg : generate_variable_element v gp pn sp
            (match blk.kind with
              | .global network_publish_mode => network_publish_mode
              | _ => "DoNotPublish") S c (use_order_attr blk.kind) with
        | error e =>
            rw [hg] at h
            exact absurd h (by simp [bind, Except.bind])
        | ok r =>
            rw [hg] at h
            simp only [bind, Except.bind] at h
            cases r with
            | none => exact ih _ _ _ _ h
            | some res =>
                dsimp only at h
                cases hrec : genPouVarsLoop gp pn sp blk rest (c + 1)
                    (placeVariableNode blk conts res.node) res.preused with
                | error e => rw [hrec] at h; exact absurd h (by simp)
                | ok out2 =>
                    rw [hrec] at h
                    dsimp only at h
                    simp only [Except.ok.injEq] at h
                    subst h
                    have h1 := gve_ok_stepTrace v gp pn sp _ S c _ _ hg res rfl
                    have h2 := ih _ _ _ _ hrec
                    exact h1.comp h2

/-- Helper: the block loop is a `StepTrace` step. -/
theorem genPouBlocksLoop_stepTrace (gp : GenerationParameters)
    (pn sp : String) :
    ∀ (blocks : List VariableBlock) (conts : PouContainers)
      (S : List (String × Nat)) out,
    genPouBlocksLoop gp pn sp blocks conts S = .ok out →
    StepTrace S out.2.1 out.2.2 := by
  intro blocks
  induction blocks with
  | nil =>
      intro conts S out h
      rw [genPouBlocksLoop] at h
      cases h
      exact StepTrace.rfl
  | cons blk rest ih =>
      intro conts S out h
      rw [genPouBlocksLoop] at h
      cases hv : genPouVarsLoop gp pn sp blk blk.vars 0 conts S with
      | error e => rw [hv] at h; exact absurd h (by simp [bind, Except.bind])
      | ok out1 =>
          rw [hv] at h
          simp only [bind, Except.bind] at h
          cases hb : genPouBlocksLoop gp pn sp rest out1.1 out1.2.1 with
          | error e => rw [hb] at h; exact absurd h (by simp)
          | ok out2 =>
              rw [hb] at h
              dsimp only at h
              simp only [Except.ok.injEq] at h
              subst h
              exact (genPouVarsLoop_stepTrace gp pn sp blk blk.vars 0 conts S out1 hv).comp
                (ih _ _ _ hb)

/-- Helper: one translated implementation is a `StepTrace` step. -/
theorem processImpl_stepTrace (gp : GenerationParameters)
    (cu : CompilationUnit) (sp now : String) (fs : String → Option String)
    (impl : Implementation) (S : List (String × Nat)) (r)
    (h : processImpl gp cu sp now fs impl S = .ok r) :
    ∀ elem S2 tr, r = some (elem, S2, tr) → StepTrace S S2 tr := by
  intro elem S2 tr hr
  subst hr
  rw [processImpl] at h
  cases hmd : cu.pous.find? (fun a => a.name == impl.name) with
  | none => rw [hmd] at h; exact absurd h (by simp)
  | some md =>
      rw [hmd] at h
      dsimp only at h
      split at h
      next => exact absurd h (by simp)
      next =>
        split at h
        next => exact absurd h (by simp)
        next =>
          cases htext : (match impl.location.span with
            | CodeSpan.range startOffset endOffset =>
                match impl.location.file with
                | FileMarker.file file_path =>
                    grab_file_statement_from_span fs file_path startOffset endOffset
                | _ => Except.ok none
            | _ => Except.ok none : Except GenError (Option String)) with
          | error e =>
              rw [htext] at h
              exact absurd h (by simp [bind, Except.bind])
          | ok t =>
              rw [htext] at h
              simp only [bind, Except.bind] at h
              cases t with
              | none => exact absurd h (by simp)
              | some body =>
                  dsimp only at h
                  cases hbl : genPouBlocksLoop gp md.name sp md.variable_blocks
                      initContainers S with
                  | error e => rw [hbl] at h; exact absurd h (by simp)
                  | ok out =>
                      rw [hbl] at h
                      dsimp only at h
                      split at h
                      next helem =>
                        exact absurd h (by simp)
                      next elem2 helem =>
                        simp only [Except.ok.injEq, Option.some.injEq,
                          Prod.mk.injEq] at h
                        obtain ⟨-, h2, h3⟩ := h
                        subst h2
                        subst h3
                        exact genPouBlocksLoop_stepTrace gp md.name sp
                          md.variable_blocks initContainers S out hbl

/-- Helper: the implementation loop is a `StepTrace` step. -/
theorem genImplsLoop_stepTrace (gp : GenerationParameters)
    (cu : CompilationUnit) (sp now : String) (fs : String → Option String) :
    ∀ (impls : List Implementation) (S : List (String × Nat)) out,
    genImplsLoop gp cu sp now fs impls S = .ok out →
    StepTrace S out.2.1 out.2.2 := by
  intro impls
  induction impls with
  | nil =>
      intro S out h
      rw [genImplsLoop] at h
      cases h
      exact StepTrace.rfl
  | cons impl rest ih =>
      intro S out h
      rw [genImplsLoop] at h
      cases hone : processImpl gp cu sp now fs impl S with
      | error e => rw [hone] at h; exact absurd h (by simp [bind, Except.bind])
      | ok r =>
          rw [hone] at h
          simp only [bind, Except.bind] at h
          cases r with
          | none => exact ih _ _ h
          | some triple =>
              obtain ⟨elem, S2, tr⟩ := triple
              dsimp only at h
              cases hrest : genImplsLoop gp cu sp now fs rest S2 with
              | error e => rw [hrest] at h; exact absurd h (by simp)
              | ok out2 =>
                  rw [hrest] at h
                  dsimp only at h
                  simp only [Except.ok.injEq] at h
                  subst h
                  exact (processImpl_stepTrace gp cu sp now fs impl S _ hone
                    elem S2 tr rfl).comp (ih _ _ hrest)

/-- Helper: `generate_pous` is a `StepTrace` step over the run-wide
order set. -/
theorem generate_pous_stepTrace (gp : GenerationParameters)
    (cu : CompilationUnit) (sp now : String) (fs : String → Option String)
    (S : List (String × Nat)) (root : Node) (r)
    (h : generate_pous gp cu sp now fs S root = .ok r) :
    ∀ root2 S2 tr, r = some (root2, S2, tr) → StepTrace S S2 tr := by
  intro root2 S2 tr hr
  subst hr
  rw [generate_pous] at h
  split at h
  next => exact absurd h (by simp)
  next =>
    cases hloop : genImplsLoop gp cu sp now fs cu.implementations S with
    | error e => rw [hloop] at h; exact absurd h (by simp [bind, Except.bind])
    | ok out =>
        rw [hloop] at h
        simp only [bind, Except.bind] at h
        split at h
        next => exact absurd h (by simp)
        next =>
          simp only [Except.ok.injEq, Option.some.injEq, Prod.mk.injEq] at h
          obtain ⟨-, h2, h3⟩ := h
          subst h2
          subst h3
          exact genImplsLoop_stepTrace gp cu sp now fs cu.implementations S out hloop

/-- Helper: without `add_order` the variable generator leaves the order
set untouched. -/
theorem gve_false_preserves (v : Variable) (gp : GenerationParameters)
    (pn sp np : String) (S : List (String × Nat)) (order : Nat) (r)
    (h : generate_variable_element v gp pn sp np S order false = .ok r) :
    ∀ res, r = some res → res.preused = S := by
  intro res hr
  subst hr
  rw [generate_variable_element] at h
  cases hd : v.data_type_declaration with
  | none => rw [hd] at h; exact absurd h (by simp)
  | some tn =>
      rw [hd] at h
      try dsimp only at h
      rw [if_neg (by decide : ¬ (false = true))] at h
      try dsimp only at h
      simp only [bind, Except.bind] at h
      simp only [Except.ok.injEq, Option.some.injEq] at h
      rw [← h]

/-- Helper: the globals variable loop leaves the order set untouched
(`add_order` is always `false` there). -/
theorem genGlobalVarsLoop_preserves (gp : GenerationParameters)
    (un sp : String) (kind : VariableBlockType) :
    ∀ (vars : List Variable) (b : Nat) (S : List (String × Nat)) out,
    genGlobalVarsLoop gp un sp kind vars b S = .ok out → out.2 = S := by
  intro vars
  induction vars with
  | nil =>
      intro b S out h
      rw [genGlobalVarsLoop] at h
      cases h
      rfl
  | cons v rest ih =>
      intro b S out h
      rw [genGlobalVarsLoop.eq_def] at h
      dsimp only at h
      by_cases hspan : v.location.span = CodeSpan.none
      · rw [if_pos hspan] at h
        exact ih _ _ _ h
      · rw [if_neg hspan] at h
        cases kind with
        | localK => exact ih _ _ _ h
        | temp => exact ih _ _ _ h
        | input => exact ih _ _ _ h
        | output => exact ih _ _ _ h
        | inOut => exact ih _ _ _ h
        | external => exact ih _ _ _ h
        | global npm =>
            dsimp only at h
            cases hg : generate_variable_element v gp un sp npm S b false with
            | error e =>
                rw [hg] at h
                exact absurd h (by simp [bind, Except.bind])
            | ok r =>
                rw [hg] at h
                simp only [bind, Except.bind] at h
                cases r with
                | none => exact ih _ _ _ h
                | some res =>
                    dsimp only at h
                    cases hrec : genGlobalVarsLoop gp un sp
                        (VariableBlockType.global npm) rest (b + 1)
                        res.preused with
                    | error e => rw [hrec] at h; exact absurd h (by simp)
                    | ok out2 =>
                        rw [hrec] at h
                        dsimp only at h
                        simp only [Except.ok.injEq] at h
                        subst h
                        have h1 := gve_false_preserves v gp un sp npm S b _ hg res rfl
                        have h2 := ih _ _ _ hrec
                        simp only []
                        rw [h2, h1]

/-- Helper: the globals block loop leaves the order set untouched. -/
theorem genGlobalsBlocks_preserves (gp : GenerationParameters)
    (un sp : String) :
    ∀ (blocks : List VariableBlock) (acc : GlobalsBuckets)
      (S : List (String × Nat)) out,
    genGlobalsBlocks gp un sp blocks acc S = .ok out → out.2 = S := by
  intro blocks
  induction blocks with
  | nil =>
      intro acc S out h
      rw [genGlobalsBlocks] at h
      cases h
      rfl
  | cons blk rest ih =>
      intro acc S out h
      rw [genGlobalsBlocks] at h
      cases hv : genGlobalVarsLoop gp un sp blk.kind blk.vars 0 S with
      | error e => rw [hv] at h; exact absurd h (by simp [bind, Except.bind])
      | ok out1 =>
          rw [hv] at h
          simp only [bind, Except.bind] at h
          have h1 := genGlobalVarsLoop_preserves gp un sp blk.kind blk.vars 0 S out1 hv
          have h2 := ih _ _ _ h
          rw [h2, h1]

/-- Helper: `generate_globals` leaves the order set untouched. -/
theorem generate_globals_preserves (gp : GenerationParameters)
    (cu : CompilationUnit) (un sp : String) (S : List (String × Nat))
    (root : Node) (r) (h : generate_globals gp cu un sp S root = .ok r) :
    ∀ root2 S2, r = some (root2, S2) → S2 = S := by
  intro root2 S2 hr
  subst hr
  rw [generate_globals] at h
  split at h
  next => exact absurd h (by simp)
  next =>
    dsimp only at h
    cases hb : genGlobalsBlocks gp un sp cu.global_vars
        { constant_retain_globals :=
            (((Node.new "GlobalVars").attr "constant" "true").attr "retain" "true")
          constant_globals := (Node.new "GlobalVars").attr "constant" "true"
          retain_globals := (Node.new "GlobalVars").attr "retain" "true"
          normal_globals := Node.new "GlobalVars" } S with
    | error e => rw [hb] at h; exact absurd h (by simp [bind, Except.bind])
    | ok out =>
        rw [hb] at h
        simp only [bind, Except.bind] at h
        split at h
        next => exact absurd h (by simp)
        next =>
          simp only [Except.ok.injEq, Option.some.injEq, Prod.mk.injEq] at h
          rw [← h.2]
          exact genGlobalsBlocks_preserves gp un sp cu.global_vars _ S out hb

/-- Helper: the run invariant — the ghost trace of claimed
`(pou, order)` keys is duplicate-free and contained in the set. -/
def StInv (st : GenState) : Prop :=
  st.trace.Nodup ∧ ∀ p ∈ st.trace, p ∈ st.param_order

/-- Helper: the POU step of one unit preserves the run invariant. -/
theorem pous_tail_inv (gp : GenerationParameters) (sp now : String)
    (fs : String → Option String) (cu : CompilationUnit)
    (stx st2 : GenState)
    (h : (do
        let p ← generate_pous gp cu sp now fs stx.param_order stx.root
        match p with
        | none => Except.ok stx
        | some (root4, order4, tr) =>
            Except.ok { param_order := order4, root := root4,
                        trace := stx.trace ++ tr }) = .ok st2)
    (hst : StInv stx) : StInv st2 := by
  cases hp : generate_pous gp cu sp now fs stx.param_order stx.root with
  | error e => rw [hp] at h; exact absurd h (by simp [bind, Except.bind])
  | ok p =>
      rw [hp] at h
      simp only [bind, Except.bind] at h
      cases p with
      | none => cases h; exact hst
      | some triple =>
          obtain ⟨root4, order4, tr⟩ := triple
          dsimp only at h
          cases h
          have hstep := generate_pous_stepTrace gp cu sp now fs
            stx.param_order stx.root _ hp root4 order4 tr rfl
          obtain ⟨mono, ntr, ftr⟩ := hstep
          constructor
          · simp only [List.nodup_append]
            refine ⟨hst.1, ntr, ?_⟩
            intro q hq1 hq2
            exact (ftr q hq2).2 (hst.2 q hq1)
          · intro q hq
            simp only [List.mem_append] at hq
            rcases hq with hq | hq
            · exact mono _ (hst.2 q hq)
            · exact (ftr q hq).1

/-- Helper: the custom-types and POU steps preserve the run
invariant. -/
theorem processUnit_tail_inv (gp : GenerationParameters) (sp now : String)
    (fs : String → Option String) (cu : CompilationUnit)
    (st1 st2 : GenState)
    (h : (do
        let ct ← generate_custom_types gp cu st1.root
        let stx : GenState :=
          match ct with
          | none => st1
          | some root3 => { st1 with root := root3 }
        let p ← generate_pous gp cu sp now fs stx.param_order stx.root
        match p with
        | none => Except.ok stx
        | some (root4, order4, tr) =>
            Except.ok { param_order := order4, root := root4,
                        trace := stx.trace ++ tr }) = .ok st2)
    (hst : StInv st1) : StInv st2 := by
  cases hct : generate_custom_types gp cu st1.root with
  | error e => rw [hct] at h; exact absurd h (by simp [bind, Except.bind])
  | ok ct =>
      rw [hct] at h
      simp only [bind, Except.bind] at h
      cases ct with
      | none =>
          dsimp only at h
          exact pous_tail_inv gp sp now fs cu st1 st2 h hst
      | some root3 =>
          dsimp only at h
          exact pous_tail_inv gp sp now fs cu { st1 with root := root3 } st2 h
            ⟨hst.1, hst.2⟩

/-- Helper: one unit of the run preserves the run invariant. -/
theorem processUnit_inv (gp : GenerationParameters) (sp now : String)
    (fs : String → Option String) (st : GenState) (cu : CompilationUnit)
    (st2 : GenState) (h : processUnit gp sp now fs st cu = .ok st2)
    (hst : StInv st) : StInv st2 := by
  rw [processUnit] at h
  split at h
  next => cases h; exact hst
  next =>
    cases hg : generate_globals gp cu (cu.file.getD "") sp st.param_order st.root with
    | error e => rw [hg] at h; exact absurd h (by simp [bind, Except.bind])
    | ok g =>
        rw [hg] at h
        simp only [bind, Except.bind] at h
        cases g with
        | none =>
            dsimp only at h
            exact processUnit_tail_inv gp sp now fs cu st st2 h hst
        | some pr =>
            obtain ⟨root2, order2⟩ := pr
            dsimp only at h
            have hpres := generate_globals_preserves gp cu _ sp st.param_order
              st.root _ hg root2 order2 rfl
            refine processUnit_tail_inv gp sp now fs cu
              { st with root := root2, param_order := order2 } st2 h ?_
            refine ⟨hst.1, ?_⟩
            intro q hq
            simp only []
            rw [hpres]
            exact hst.2 q hq

/-- Helper: the unit loop preserves the run invariant. -/
theorem runUnits_inv (gp : GenerationParameters) (sp now : String)
    (fs : String → Option String) :
    ∀ (units : List CompilationUnit) (st st2 : GenState),
    runUnits gp sp now fs units st = .ok st2 → StInv st → StInv st2 := by
  intro units
  induction units with
  | nil =>
      intro st st2 h hst
      rw [runUnits] at h
      cases h
      exact hst
  | cons cu rest ih =>
      intro st st2 h hst
      rw [runUnits] at h
      cases hu : processUnit gp sp now fs st cu with
      | error e => rw [hu] at h; exact absurd h (by simp [bind, Except.bind])
      | ok stm =>
          rw [hu] at h
          simp only [bind, Except.bind] at h
          exact ih _ _ h (processUnit_inv gp sp now fs st cu stm hu hst)

/-- C3: across one entire generation run the ghost trace of assigned
`(procedural-unit-name, orderWithinParamSet)` keys has no duplicate —
no two order-sensitive variables of the same procedural unit receive
the same order — and every assigned key is recorded in the run-wide
tracker, which is created once and threaded through all units without
reset. -/
theorem C3_order_uniqueness (gp : GenerationParameters)
    (units : List CompilationUnit) (sp now : String)
    (fs : String → Option String) (root : Node) (st : GenState)
    (h : parse_project_into_nodetree gp units sp now fs root = .ok st) :
    st.trace.Nodup ∧ ∀ p ∈ st.trace, p ∈ st.param_order := by
  have h0 : StInv { param_order := [], root := root, trace := [] } :=
    ⟨List.nodup_nil, fun p hp => absurd hp (List.not_mem_nil p)⟩
  exact runUnits_inv gp sp now fs units _ st h h0

/-- Concrete fixture: a one-file file system for witnesses. -/
def fsF : String → Option String :=
  fun p => if p == "main.st" then some "x := 1;" else none

/-- Concrete fixture: a resolvable source location. -/
def locF : SourceLocation := ⟨.range 0 3, .file "main.st"⟩

/-- Concrete fixture: an INT variable. -/
def mkIntVar (s : String) : Variable := ⟨s, some "INT", none, none, locF⟩

/-- Concrete fixture: one unit with a function of two input and two
output variables. -/
def cuF : CompilationUnit :=
  ⟨some "main.st", [], [],
   [⟨"G", [⟨[mkIntVar "a", mkIntVar "b"], .input, false, false⟩,
           ⟨[mkIntVar "c", mkIntVar "d"], .output, false, false⟩], none⟩],
   [⟨"G", .function, .internal, locF⟩]⟩


/-- Concrete fixture: the run result on `cuF`. -/
def stF : GenState :=
  match parse_project_into_nodetree ⟨false⟩ [cuF] "schema" "T0" fsF
      (get_omron_template "T0") with
  | .ok st => st
  | .error _ => ⟨[], Node.new "", []⟩

/-- Witness for C3: the concrete run on `cuF` satisfies the claim. -/
theorem C3_order_uniqueness_witness :
    ∃ st : GenState,
      parse_project_into_nodetree ⟨false⟩ [cuF] "schema" "T0" fsF
        (get_omron_template "T0") = .ok st ∧
      st.trace.Nodup ∧ ∀ p ∈ st.trace, p ∈ st.param_order :=
  ⟨stF, by rfl, C3_order_uniqueness ⟨false⟩ [cuF] "schema" "T0" fsF
    (get_omron_template "T0") stF (by rfl)⟩

/-- Helper: a unit whose file name does not end in `.st`
(case-insensitively) leaves the run state untouched. -/
theorem processUnit_skip (gp : GenerationParameters) (sp now : String)
    (fs : String → Option String) (st : GenState) (cu : CompilationUnit)
    (h : strEndsWith (strToLower (cu.file.getD "")) ".st" = false) :
    processUnit gp sp now fs st cu = .ok st := by
  rw [processUnit]
  simp only [h, if_pos]

/-- Helper: removing a skipped unit anywhere in the list does not
change the run. -/
theorem runUnits_skip_middle (gp : GenerationParameters) (sp now : String)
    (fs : String → Option String) (cu : CompilationUnit)
    (l2 : List CompilationUnit)
    (h : strEndsWith (strToLower (cu.file.getD "")) ".st" = false) :
    ∀ (l1 : List CompilationUnit) (st : GenState),
    runUnits gp sp now fs (l1 ++ cu :: l2) st =
      runUnits gp sp now fs (l1 ++ l2) st := by
  intro l1
  induction l1 with
  | nil =>
      intro st
      simp only [List.nil_append]
      rw [runUnits, processUnit_skip gp sp now fs st cu h]
      rfl
  | cons u l1 ih =>
      intro st
      simp only [List.cons_append]
      rw [runUnits, runUnits]
      cases hu : processUnit gp sp now fs st u with
      | error e => rfl
      | ok st2 =>
          simp only [bind, Except.bind]
          exact ih st2

/-- C9: a compilation unit whose file name does not end in `.st`
(compared case-insensitively; a missing name counts as the empty name)
contributes nothing: the whole run equals the run without it — same
tree, same order set, same assignments. -/
theorem C9_non_st_units_skipped (gp : GenerationParameters)
    (sp now : String) (fs : String → Option String) (root : Node)
    (us1 us2 : List CompilationUnit) (cu : CompilationUnit)
    (h : strEndsWith (strToLower (cu.file.getD "")) ".st" = false) :
    parse_project_into_nodetree gp (us1 ++ cu :: us2) sp now fs root =
      parse_project_into_nodetree gp (us1 ++ us2) sp now fs root := by
  rw [parse_project_into_nodetree, parse_project_into_nodetree]
  exact runUnits_skip_middle gp sp now fs cu us2 h us1 _

/-- Concrete fixture: a unit with a non-`.st` file name. -/
def cuTxt : CompilationUnit :=
  ⟨some "main.txt", [], [],
   [⟨"G", [⟨[mkIntVar "a"], .input, false, false⟩], none⟩],
   [⟨"G", .function, .internal, locF⟩]⟩

/-- Witness for C9 at a concrete two-unit project. -/
theorem C9_non_st_units_skipped_witness :
    strEndsWith (strToLower (cuTxt.file.getD "")) ".st" = false ∧
    parse_project_into_nodetree ⟨false⟩ ([cuF] ++ cuTxt :: []) "schema" "T0"
        fsF (get_omron_template "T0") =
      parse_project_into_nodetree ⟨false⟩ ([cuF] ++ []) "schema" "T0" fsF
        (get_omron_template "T0") :=
  ⟨rfl, C9_non_st_units_skipped ⟨false⟩ "schema" "T0" fsF
    (get_omron_template "T0") [cuF] [] cuTxt rfl⟩

/-- Helper: the only failure of the probe loop model is fuel
exhaustion. -/
theorem searchOrderGo_error (pou : String) (S : List (String × Nat)) :
    ∀ fuel iter inc e, searchOrderGo pou fuel iter inc S = .error e →
      e = .searchFuel := by
  intro fuel
  induction fuel with
  | zero =>
      intro iter inc e h
      rw [searchOrderGo] at h
      cases h
      rfl
  | succ n ih =>
      intro iter inc e h
      rw [searchOrderGo] at h
      split at h
      next => exact ih _ _ _ h
      next => exact absurd h (by simp)

/-- Helper: the only failure of `generate_variable_element` is the
search fuel. -/
theorem gve_error (v : Variable) (gp : GenerationParameters)
    (pn sp np : String) (S : List (String × Nat)) (order : Nat) (b : Bool)
    (e : GenError)
    (h : generate_variable_element v gp pn sp np S order b = .error e) :
    e = .searchFuel := by
  rw [generate_variable_element] at h
  cases hd : v.data_type_declaration with
  | none => rw [hd] at h; exact absurd h (by simp)
  | some tn =>
      rw [hd] at h
      dsimp only at h
      split at h
      next =>
        cases hso : searchOrder pn order S with
        | error e2 =>
            rw [hso] at h
            simp only [bind, Except.bind, Except.error.injEq] at h
            subst h
            exact searchOrderGo_error pn S _ _ _ _ hso
        | ok pr =>
            rw [hso] at h
            exact absurd h (by simp [bind, Except.bind])
      next =>
        exact absurd h (by simp [bind, Except.bind])

/-- Helper: failure classification for the per-block variable loop. -/
theorem genPouVarsLoop_error (gp : GenerationParameters)
    (pn sp : String) (blk : VariableBlock) :
    ∀ (vars : List Variable) (c : Nat) (conts : PouContainers)
      (S : List (String × Nat)) e,
    genPouVarsLoop gp pn sp blk vars c conts S = .error e →
    e = .searchFuel := by
  intro vars
  induction vars with
  | nil =>
      intro c conts S e h
      rw [genPouVarsLoop] at h
      exact absurd h (by simp)
  | cons v rest ih =>
      intro c conts S e h
      rw [genPouVarsLoop] at h
      split at h
      next => exact ih _ _ _ _ h
      next =>
        dsimp only at h
        cases hg : generate_variable_element v gp pn sp
            (match blk.kind with
              | .global network_publish_mode => network_publish_mode
              | _ => "DoNotPublish") S c (use_order_attr blk.kind) with
        | error e2 =>
            rw [hg] at h
            simp only [bind, Except.bind, Except.error.injEq] at h
            subst h
            exact gve_error v gp pn sp _ S c _ _ hg
        | ok r =>
            rw [hg] at h
            simp only [bind, Except.bind] at h
            cases r with
            | none => exact ih _ _ _ _ h
            | some res =>
                dsimp only at h
                cases hrec : genPouVarsLoop gp pn sp blk rest (c + 1)
                    (placeVariableNode blk conts res.node) res.preused with
                | error e2 =>
                    rw [hrec] at h
                    dsimp only at h
                    cases h
                    exact ih _ _ _ _ hrec
                | ok out2 =>
                    rw [hrec] at h
                    exact absurd h (by simp)

/-- Helper: failure classification for the block loop. -/
theorem genPouBlocksLoop_error (gp : GenerationParameters)
    (pn sp : String) :
    ∀ (blocks : List VariableBlock) (conts : PouContainers)
      (S : List (String × Nat)) e,
    genPouBlocksLoop gp pn sp blocks conts S = .error e →
    e = .searchFuel := by
  intro blocks
  induction blocks with
  | nil =>
      intro conts S e h
      rw [genPouBlocksLoop] at h
      exact absurd h (by simp)
  | cons blk rest ih =>
      intro conts S e h
      rw [genPouBlocksLoop] at h
      cases hv : genPouVarsLoop gp pn sp blk blk.vars 0 conts S with
      | error e2 =>
          rw [hv] at h
          simp only [bind, Except.bind, Except.error.injEq] at h
          subst h
          exact genPouVarsLoop_error gp pn sp blk blk.vars 0 conts S _ hv
      | ok out1 =>
          rw [hv] at h
          simp only [bind, Except.bind] at h
          cases hb : genPouBlocksLoop gp pn sp rest out1.1 out1.2.1 with
          | error e2 =>
              rw [hb] at h
              dsimp only at h
              cases h
              exact ih _ _ _ hb
          | ok out2 =>
              rw [hb] at h
              exact absurd h (by simp)

/-- Helper: `grab_file_statement_from_span` fails only with a
file-read panic. -/
theorem grab_error (fs : String → Option String) (p : String)
    (s1 s2 : Nat) (e : GenError)
    (h : grab_file_statement_from_span fs p s1 s2 = .error e) :
    e = .fileRead := by
  rw [grab_file_statement_from_span] at h
  cases hf : fs p with
  | none => rw [hf] at h; cases h; rfl
  | some content =>
      rw [hf] at h
      dsimp only at h
      split at h
      next => exact absurd h (by simp)
      next =>
        split at h
        next => cases h; rfl
        next => exact absurd h (by simp)

/-- Helper: with its metadata present, one implementation can fail
only on file reading or search fuel — never on the metadata lookup. -/
theorem processImpl_error (gp : GenerationParameters) (cu : CompilationUnit)
    (sp now : String) (fs : String → Option String) (impl : Implementation)
    (S : List (String × Nat)) (e : GenError)
    (hmd : (cu.pous.find? (fun a => a.name == impl.name)).isSome)
    (h : processImpl gp cu sp now fs impl S = .error e) :
    e = .fileRead ∨ e = .searchFuel := by
  rw [processImpl] at h
  cases hfind : cu.pous.find? (fun a => a.name == impl.name) with
  | none => rw [hfind] at hmd; exact absurd hmd (by simp)
  | some md =>
      rw [hfind] at h
      dsimp only at h
      split at h
      next => exact absurd h (by simp)
      next =>
        split at h
        next => exact absurd h (by simp)
        next =>
          cases htext : (match impl.location.span with
            | CodeSpan.range startOffset endOffset =>
                match impl.location.file with
                | FileMarker.file file_path =>
                    grab_file_statement_from_span fs file_path startOffset endOffset
                | _ => Except.ok none
            | _ => Except.ok none : Except GenError (Option String)) with
          | error e2 =>
              rw [htext] at h
              simp only [bind, Except.bind, Except.error.injEq] at h
              subst h
              left
              revert htext
              cases impl.location.span with
              | none => intro htext; exact absurd htext (by simp)
              | range s1 s2 =>
                  cases impl.location.file with
                  | file p => intro htext; exact grab_error fs p s1 s2 _ htext
                  | internal nm => intro htext; exact absurd htext (by simp)
          | ok t =>
              rw [htext] at h
              simp only [bind, Except.bind] at h
              cases t with
              | none => exact absurd h (by simp)
              | some body =>
                  dsimp only at h
                  cases hbl : genPouBlocksLoop gp md.name sp md.variable_blocks
                      initContainers S with
                  | error e2 =>
                      rw [hbl] at h
                      dsimp only at h
                      cases h
                      right
                      exact genPouBlocksLoop_error gp md.name sp
                        md.variable_blocks initContainers S _ hbl
                  | ok out =>
                      rw [hbl] at h
                      dsimp only at h
                      split at h
                      next => exact absurd h (by simp)
                      next => exact absurd h (by simp)

/-- Helper: when every implementation of the list has declared
metadata, the loop never raises the metadata panic. -/
theorem genImplsLoop_no_missing (gp : GenerationParameters)
    (cu : CompilationUnit) (sp now : String) (fs : String → Option String) :
    ∀ (impls : List Implementation) (S : List (String × Nat)) e,
    (∀ impl ∈ impls, (cu.pous.find? (fun a => a.name == impl.name)).isSome) →
    genImplsLoop gp cu sp now fs impls S = .error e →
    e ≠ .missingMetadata := by
  intro impls
  induction impls with
  | nil =>
      intro S e hall h
      rw [genImplsLoop] at h
      exact absurd h (by simp)
  | cons impl rest ih =>
      intro S e hall h
      rw [genImplsLoop] at h
      cases hone : processImpl gp cu sp now fs impl S with
      | error e2 =>
          rw [hone] at h
          simp only [bind, Except.bind, Except.error.injEq] at h
          subst h
          rcases processImpl_error gp cu sp now fs impl S _
              (hall impl (List.mem_cons_self _ _)) hone with h2 | h2 <;>
            simp [h2]
      | ok r =>
          rw [hone] at h
          simp only [bind, Except.bind] at h
          cases r with
          | none =>
              exact ih _ _ (fun i hi => hall i (List.mem_cons_of_mem _ hi)) h
          | some triple =>
              obtain ⟨elem, S2, tr⟩ := triple
              dsimp only at h
              cases hrest : genImplsLoop gp cu sp now fs rest S2 with
              | error e2 =>
                  rw [hrest] at h
                  dsimp only at h
                  cases h
                  exact ih _ _ (fun i hi => hall i (List.mem_cons_of_mem _ hi)) hrest
              | ok out2 =>
                  rw [hrest] at h
                  exact absurd h (by simp)

/-- Helper: under the metadata precondition, `generate_pous` never
fails with the metadata panic. -/
theorem pous_no_missing_aux (gp : GenerationParameters)
    (cu : CompilationUnit) (sp now : String) (fs : String → Option String)
    (S : List (String × Nat)) (root : Node)
    (hall : ∀ impl ∈ cu.implementations, ∃ p ∈ cu.pous, p.name = impl.name) :
    generate_pous gp cu sp now fs S root ≠ .error .missingMetadata := by
  intro h
  rw [generate_pous] at h
  split at h
  next => exact absurd h (by simp)
  next =>
    cases hloop : genImplsLoop gp cu sp now fs cu.implementations S with
    | error e =>
        rw [hloop] at h
        simp only [bind, Except.bind, Except.error.injEq] at h
        subst h
        refine genImplsLoop_no_missing gp cu sp now fs cu.implementations S _
          ?_ hloop rfl
        intro impl hi
        obtain ⟨p, hp, hname⟩ := hall impl hi
        rw [List.find?_isSome]
        exact ⟨p, hp, by simp [hname]⟩
    | ok out =>
        rw [hloop] at h
        simp only [bind, Except.bind] at h
        split at h
        next => exact absurd h (by simp)
        next => exact absurd h (by simp)

/-- Concrete fixture: a unit whose single implementation has no
matching declared pou. -/
def cuNoMeta : CompilationUnit :=
  ⟨some "main.st", [], [], [], [⟨"X", .program, .internal, locF⟩]⟩

/-- C10: every implementation processed by `generate_pous` must have a
declared pou of identical name: under that precondition the panic
branch is unreachable, and on a concrete unit violating it the whole
generation run aborts with the metadata panic instead of skipping the
implementation. -/
theorem C10_metadata_required :
    (∀ (gp : GenerationParameters) (cu : CompilationUnit) (sp now : String)
       (fs : String → Option String) (S : List (String × Nat)) (root : Node),
      (∀ impl ∈ cu.implementations, ∃ p ∈ cu.pous, p.name = impl.name) →
      generate_pous gp cu sp now fs S root ≠ .error .missingMetadata) ∧
    parse_project_into_nodetree ⟨false⟩ [cuNoMeta] "schema" "T0" fsF
      (get_omron_template "T0") = .error .missingMetadata :=
  ⟨pous_no_missing_aux, by rfl⟩

/-- Witness for C10 at the concrete unit `cuF`. -/
theorem C10_metadata_required_witness :
    generate_pous ⟨false⟩ cuF "schema" "T0" fsF []
      (get_omron_template "T0") ≠ .error .missingMetadata :=
  C10_metadata_required.1 ⟨false⟩ cuF "schema" "T0" fsF []
    (get_omron_template "T0")
    (by
      intro impl hi
      simp only [cuF, List.mem_singleton] at hi
      subst hi
      exact ⟨⟨"G", [⟨[mkIntVar "a", mkIntVar "b"], .input, false, false⟩,
              ⟨[mkIntVar "c", mkIntVar "d"], .output, false, false⟩], none⟩,
        by simp [cuF], rfl⟩)

/-- Helper: appending a child does not change the attribute map. -/
theorem hasAttrKey_child (n c : Node) (k : String) :
    (n.child c).hasAttrKey k = n.hasAttrKey k := rfl

/-- Helper: after `attribute(k, v)` the key `k` is present. -/
theorem hasAttrKey_attr_self (n : Node) (k val : String) :
    (n.attr k val).hasAttrKey k = true := by
  simp only [Node.hasAttrKey, Node.attr, attrInsert]
  split
  next hany =>
    simp only [List.any_eq_true] at hany ⊢
    obtain ⟨p, hp, hpk⟩ := hany
    refine ⟨(p.1, val), List.mem_map.mpr ⟨p, hp, by simp [hpk]⟩, hpk⟩
  next =>
    simp

/-- Helper: a variable element carries `orderWithinParamSet` exactly
when `add_order` was passed. -/
theorem gve_order_attr (v : Variable) (gp : GenerationParameters)
    (pn sp np : String) (S : List (String × Nat)) (order : Nat) (b : Bool)
    (res : VarElemResult)
    (h : generate_variable_element v gp pn sp np S order b = .ok (some res)) :
    res.node.hasAttrKey "orderWithinParamSet" = b := by
  rw [generate_variable_element] at h
  cases hd : v.data_type_declaration with
  | none => rw [hd] at h; exact absurd h (by simp)
  | some tn =>
      rw [hd] at h
      dsimp only at h
      split at h
      next hb =>
        cases hso : searchOrder pn order S with
        | error e =>
            rw [hso] at h
            exact absurd h (by simp [bind, Except.bind])
        | ok pr =>
            rw [hso] at h
            simp only [bind, Except.bind, Except.ok.injEq, Option.some.injEq] at h
            have hn : res.node = _ := congrArg VarElemResult.node h.symm
            rw [hb]
            rw [hn]
            cases v.address with
            | none =>
                cases v.initializer with
                | none => exact hasAttrKey_attr_self _ _ _
                | some a =>
                    cases a with
                    | literal s =>
                        rw [hasAttrKey_child]
                        exact hasAttrKey_attr_self _ _ _
                    | nonLiteral => exact hasAttrKey_attr_self _ _ _
            | some a =>
                cases a with
                | literal s =>
                    rw [hasAttrKey_child]
                    cases v.initializer with
                    | none => exact hasAttrKey_attr_self _ _ _
                    | some a2 =>
                        cases a2 with
                        | literal s2 =>
                            rw [hasAttrKey_child]
                            exact hasAttrKey_attr_self _ _ _
                        | nonLiteral => exact hasAttrKey_attr_self _ _ _
                | nonLiteral =>
                    cases v.initializer with
                    | none => exact hasAttrKey_attr_self _ _ _
                    | some a2 =>
                        cases a2 with
                        | literal s2 =>
                            rw [hasAttrKey_child]
                            exact hasAttrKey_attr_self _ _ _
                        | nonLiteral => exact hasAttrKey_attr_self _ _ _
      next hb =>
        simp only [bind, Except.bind, Except.ok.injEq, Option.some.injEq] at h
        have hn : res.node = _ := congrArg VarElemResult.node h.symm
        have hb2 : b = false := by
          cases b
          · rfl
          · exact absurd rfl hb
        rw [hb2]
        rw [hn]
        cases v.address with
        | none =>
            cases v.initializer with
            | none => rfl
            | some a =>
                cases a with
                | literal s => rfl
                | nonLiteral => rfl
        | some a =>
            cases a with
            | literal s =>
                cases v.initializer with
                | none => rfl
                | some a2 =>
                    cases a2 with
                    | literal s2 => rfl
                    | nonLiteral => rfl
            | nonLiteral =>
                cases v.initializer with
                | none => rfl
                | some a2 =>
                    cases a2 with
                    | literal s2 => rfl
                    | nonLiteral => rfl

/-- C5 (amended): `generate_pous` computes order-sensitivity as
`kind ≠ Local ∧ kind ≠ External` — so input, output, in-out and also
temp (and per-POU global) blocks receive `orderWithinParamSet`, while
local and external blocks never do — and a generated variable element
carries the attribute exactly when that flag was set. -/
theorem C5_order_sensitive_roles :
    (∀ kind, use_order_attr kind = true ↔
      (kind ≠ VariableBlockType.localK ∧ kind ≠ VariableBlockType.external)) ∧
    (∀ (v : Variable) (gp : GenerationParameters) (pn sp np : String)
       (S : List (String × Nat)) (order : Nat) (b : Bool)
       (res : VarElemResult),
      generate_variable_element v gp pn sp np S order b = .ok (some res) →
      (res.node.hasAttrKey "orderWithinParamSet" = true ↔ b = true)) := by
  constructor
  · intro kind
    rw [use_order_attr]
    simp [decide_eq_true_eq]
  · intro v gp pn sp np S order b res h
    rw [gve_order_attr v gp pn sp np S order b res h]

/-- Concrete fixture: a temp variable block. -/
def tempBlk : VariableBlock := ⟨[mkIntVar "t"], .temp, false, false⟩

/-- Concrete fixture: a unit whose only variable is a temp variable. -/
def cuT : CompilationUnit :=
  ⟨some "main.st", [], [], [⟨"F", [tempBlk], none⟩],
   [⟨"F", .function, .internal, locF⟩]⟩

/-- Concrete fixture: the run result on `cuT`. -/
def stT : GenState :=
  match parse_project_into_nodetree ⟨false⟩ [cuT] "schema" "T0" fsF
      (get_omron_template "T0") with
  | .ok st => st
  | .error _ => ⟨[], Node.new "", []⟩

/-- Concrete fixture: the children of the `TempVars` container after
processing `tempBlk`. -/
def tempChildren : List Node :=
  match genPouVarsLoop ⟨false⟩ "F" "schema" tempBlk tempBlk.vars 0
      initContainers [] with
  | .ok out => out.1.temp_vars.children
  | .error _ => []

/-- C5 counterexample: the temp block kind is order-sensitive in the
code; the single temp variable of `tempBlk` receives an
`orderWithinParamSet` attribute, and the full run on `cuT` claims the
order key `(F, 0)` for it — contradicting "temp blocks never receive
one". -/
theorem C5_counterexample :
    use_order_attr VariableBlockType.temp = true ∧
    tempChildren.length = 1 ∧
    tempChildren.all (fun n => n.hasAttrKey "orderWithinParamSet") = true ∧
    stT.trace = [("F", 0)] :=
  ⟨rfl, by rfl, by rfl, by rfl⟩

/-- Concrete fixture: the result of one order-assigning call of the
variable generator. -/
def resT : VarElemResult :=
  match generate_variable_element (mkIntVar "t") ⟨false⟩ "F" "schema"
      "DoNotPublish" [] 0 true with
  | .ok (some res) => res
  | _ => ⟨Node.new "", [], none⟩

/-- Witness for C5 at a concrete order-assigning call. -/
theorem C5_order_sensitive_roles_witness :
    resT.node.hasAttrKey "orderWithinParamSet" = true ↔ true = true :=
  C5_order_sensitive_roles.2 (mkIntVar "t") ⟨false⟩ "F" "schema"
    "DoNotPublish" [] 0 true resT (by rfl)

/-- C8 (amended): `serialize` evaluates its rules in priority order.
If `closed` it emits only a self-closing tag with all attributes —
never a closing tag or children (the children and content are
irrelevant).  Else if `content` is set it emits one line
`<name>content</name>` — the text payload between plain tags WITHOUT
the node attributes, children ignored.  Else it emits an opening tag
with attributes, every child serialized at `level + 1` in order, and a
closing tag. -/
theorem C8_serialize_cases (n : Node) (level : Nat) :
    (n.closed = true →
      n.serialize level =
        Node.indentStr level ++ "<" ++ n.name ++ " " ++ n.attrsStr ++ "/>\n" ∧
      n.serialize level =
        Node.serialize { n with children := [], content := none } level) ∧
    (n.closed = false → ∀ c, n.content = some c →
      n.serialize level =
        Node.serializeContent (Node.indentStr level) n.name c ∧
      n.serialize level = Node.serialize { n with children := [] } level) ∧
    (n.closed = false → n.content = none →
      n.serialize level =
        (Node.indentStr level ++ "<" ++ n.name ++ " " ++ n.attrsStr ++ ">\n") ++
        ((n.children.map (fun ch => ch.serialize (level + 1))).foldl (· ++ ·) "" ++
        (Node.indentStr level ++ "</" ++ n.name ++ ">\n"))) := by
  refine ⟨?_, ?_, ?_⟩
  · intro hc
    constructor
    · rw [Node.serialize]
      simp [hc]
    · rw [Node.serialize]
      conv_rhs => rw [Node.serialize]
      simp [hc, Node.attrsStr]
  · intro hc c hcont
    constructor
    · rw [Node.serialize]
      simp [hc, hcont]
    · rw [Node.serialize]
      conv_rhs => rw [Node.serialize]
      simp [hc, hcont]
  · intro hc hcont
    rw [Node.serialize]
    simp only [hc, hcont, Bool.false_eq_true, if_false]
    have hm : List.map (fun c : { x // x ∈ n.children } =>
        Node.serialize c.1 (level + 1)) n.children.attach =
        List.map (fun ch => ch.serialize (level + 1)) n.children :=
      List.attach_map_val n.children (fun ch => ch.serialize (level + 1))
    rw [hm]
    simp [String.append_assoc]

/-- Concrete fixture: a closed element that also has an attribute and
a child. -/
def closedEx : Node :=
  (((Node.new "e").attr "k" "v").child (Node.new "x")).close

/-- Witness for C8 at one concrete node per serialization rule. -/
theorem C8_serialize_cases_witness :
    (Node.serialize closedEx 0 =
      Node.indentStr 0 ++ "<" ++ closedEx.name ++ " " ++ closedEx.attrsStr ++
        "/>\n") ∧
    (Node.serialize c8Node 0 =
      Node.serializeContent (Node.indentStr 0) c8Node.name "t") ∧
    (Node.serialize (Node.new "r") 0 =
      (Node.indentStr 0 ++ "<" ++ (Node.new "r").name ++ " " ++
        (Node.new "r").attrsStr ++ ">\n") ++
      (((Node.new "r").children.map
          (fun ch => ch.serialize (0 + 1))).foldl (· ++ ·) "" ++
        (Node.indentStr 0 ++ "</" ++ (Node.new "r").name ++ ">\n"))) :=
  ⟨((C8_serialize_cases closedEx 0).1 rfl).1,
   ((C8_serialize_cases c8Node 0).2.1 rfl "t" rfl).1,
   (C8_serialize_cases (Node.new "r") 0).2.2 rfl rfl⟩

/-- Helper: the probe loop always returns an order below `2^64` — the
wrapping arithmetic never produces an out-of-range value and never
fails on large inputs. -/
theorem searchOrderGo_ok_lt (pou : String) (S : List (String × Nat)) :
    ∀ fuel iter inc o S2,
    searchOrderGo pou fuel iter inc S = .ok (o, S2) → o < U64 := by
  intro fuel
  induction fuel with
  | zero => intro iter inc o S2 h; simp [searchOrderGo] at h
  | succ n ih =>
      intro iter inc o S2 h
      rw [searchOrderGo] at h
      split at h
      next => exact ih _ _ _ _ h
      next =>
        simp only [Except.ok.injEq, Prod.mk.injEq] at h
        rw [← h.1]
        exact Nat.mod_lt _ (by rw [U64]; positivity)

/-- C6 (amended): overflow is fatal only in the enumerator search — the
probe of `format_enum_initials` uses checked `i32` addition and raises
the overflow panic as soon as the next candidate would exceed
`i32::MAX`, as the concrete input shows; the order search of
`generate_variable_element` instead uses plain wrapping `usize`
addition: at `usize::MAX` it silently wraps around to claim `0`, never
raising an overflow, and always yields a value below `2^64`. -/
theorem C6_overflow_behavior :
    (∀ (parsed : Int) (viewed : List String) (fuel : Nat) (increment : Int),
      0 < fuel → parsed + increment > i32Max →
      probeEnumValue parsed viewed fuel increment = .error .overflow) ∧
    format_enum_initials [⟨"A", "2147483647"⟩, ⟨"B", "2147483647"⟩] =
      .error .overflow ∧
    searchOrder "p" (U64 - 1) [("p", U64 - 1)] =
      .ok (0, [("p", 0), ("p", U64 - 1)]) ∧
    (∀ (pou : String) (S : List (String × Nat)) (fuel iter inc o : Nat)
       (S2 : List (String × Nat)),
      searchOrderGo pou fuel iter inc S = .ok (o, S2) → o < U64) := by
  refine ⟨?_, rfl, rfl, fun pou S fuel iter inc o S2 h =>
    searchOrderGo_ok_lt pou S fuel iter inc o S2 h⟩
  intro parsed viewed fuel increment hf hover
  cases fuel with
  | zero => exact absurd hf (by omega)
  | succ n =>
      rw [probeEnumValue]
      rw [if_pos hover]

/-- Witness for C6 at a concrete overflowing probe and a concrete
in-range search. -/
theorem C6_overflow_behavior_witness :
    probeEnumValue 2147483647 [] 1 1 = .error .overflow ∧
    searchOrderGo "q" 1 5 0 [] = .ok (5, [("q", 5)]) ∧ (5 : Nat) < U64 :=
  ⟨C6_overflow_behavior.1 2147483647 [] 1 1 (by decide) (by decide),
   rfl, C6_overflow_behavior.2.2.2 "q" [] 1 5 0 5 [("q", 5)] rfl⟩

/-- Helper: the tag names of the eleven variable containers. -/
def contsNamesOK (c : PouContainers) : Prop :=
  c.input_vars.name = "InputVars" ∧ c.inout_vars.name = "InoutVars" ∧
  c.output_vars.name = "OutputVars" ∧ c.externals.name = "ExternalVars" ∧
  c.constant_externals.name = "ExternalVars" ∧ c.pvars.name = "SVars" ∧
  c.constant_vars.name = "SVars" ∧ c.retain_vars.name = "SVars" ∧
  c.constant_retain_vars.name = "SVars" ∧ c.temp_vars.name = "TempVars" ∧
  c.constant_temp_vars.name = "TempVars"

/-- Helper: the initial containers carry their tags. -/
theorem contsNamesOK_init : contsNamesOK initContainers := by
  refine ⟨rfl, rfl, rfl, rfl, rfl, rfl, rfl, rfl, rfl, rfl, rfl⟩

/-- Helper: placing a variable node does not change container tags. -/
theorem contsNamesOK_place (blk : VariableBlock) (c : PouContainers)
    (node : Node) (h : contsNamesOK c) :
    contsNamesOK (placeVariableNode blk c node) := by
  obtain ⟨h1, h2, h3, h4, h5, h6, h7, h8, h9, h10, h11⟩ := h
  rw [placeVariableNode]
  cases blk.kind <;> (repeat' split) <;>
    exact ⟨h1, h2, h3, h4, h5, h6, h7, h8, h9, h10, h11⟩

/-- Helper: the variable loop preserves container tags. -/
theorem contsNamesOK_varsLoop (gp : GenerationParameters)
    (pn sp : String) (blk : VariableBlock) :
    ∀ (vars : List Variable) (c : Nat) (conts : PouContainers)
      (S : List (String × Nat)) out,
    genPouVarsLoop gp pn sp blk vars c conts S = .ok out →
    contsNamesOK conts → contsNamesOK out.1 := by
  intro vars
  induction vars with
  | nil =>
      intro c conts S out h hc
      rw [genPouVarsLoop] at h
      cases h
      exact hc
  | cons v rest ih =>
      intro c conts S out h hc
      rw [genPouVarsLoop] at h
      split at h
      next => exact ih _ _ _ _ h hc
      next =>
        dsimp only at h
        cases hg : generate_variable_element v gp pn sp
            (match blk.kind with
              | .global network_publish_mode => network_publish_mode
              | _ => "DoNotPublish") S c (use_order_attr blk.kind) with
        | error e =>
            rw [hg] at h
            exact absurd h (by simp [bind, Except.bind])
        | ok r =>
            rw [hg] at h
            simp only [bind, Except.bind] at h
            cases r with
            | none => exact ih _ _ _ _ h hc
            | some res =>
                dsimp only at h
                cases hrec : genPouVarsLoop gp pn sp blk rest (c + 1)
                    (placeVariableNode blk conts res.node) res.preused with
                | error e => rw [hrec] at h; exact absurd h (by simp)
                | ok out2 =>
                    rw [hrec] at h
                    dsimp only at h
                    simp only [Except.ok.injEq] at h
                    subst h
                    exact ih (c + 1) (placeVariableNode blk conts res.node)
                      res.preused out2 hrec
                      (contsNamesOK_place blk conts res.node hc)

/-- Helper: the block loop preserves container tags. -/
theorem contsNamesOK_blocksLoop (gp : GenerationParameters)
    (pn sp : String) :
    ∀ (blocks : List VariableBlock) (conts : PouContainers)
      (S : List (String × Nat)) out,
    genPouBlocksLoop gp pn sp blocks conts S = .ok out →
    contsNamesOK conts → contsNamesOK out.1 := by
  intro blocks
  induction blocks with
  | nil =>
      intro conts S out h hc
      rw [genPouBlocksLoop] at h
      cases h
      exact hc
  | cons blk rest ih =>
      intro conts S out h hc
      rw [genPouBlocksLoop] at h
      cases hv : genPouVarsLoop gp pn sp blk blk.vars 0 conts S with
      | error e => rw [hv] at h; exact absurd h (by simp [bind, Except.bind])
      | ok out1 =>
          rw [hv] at h
          simp only [bind, Except.bind] at h
          cases hb : genPouBlocksLoop gp pn sp rest out1.1 out1.2.1 with
          | error e => rw [hb] at h; exact absurd h (by simp)
          | ok out2 =>
              rw [hb] at h
              dsimp only at h
              simp only [Except.ok.injEq] at h
              subst h
              exact ih out1.1 out1.2.1 out2 hb
                (contsNamesOK_varsLoop gp pn sp blk blk.vars 0 conts S out1 hv hc)

/-- C7 (amended): among the elements generate_pous produces, only
`Function` elements carry a `ResultType` child — holding exactly one
`TypeName` whose content is the declared return type name, or `BOOL`
when absent; `Program` and also `FunctionBlock` elements carry no
`ResultType` child at all. -/
theorem C7_result_type :
    ∀ (gp : GenerationParameters) (cu : CompilationUnit) (sp now : String)
      (fs : String → Option String) (impl : Implementation)
      (S : List (String × Nat)) (md : Pou) (elem : Node)
      (S2 tr : List (String × Nat)),
    cu.pous.find? (fun a => a.name == impl.name) = some md →
    processImpl gp cu sp now fs impl S = .ok (some (elem, S2, tr)) →
    ((impl.pou_type = PouType.function →
        elem.children.filter (fun c => c.name == RESULT_TYPE) =
          [(Node.new RESULT_TYPE).child ((Node.new "TypeName").contentSet
            (match md.return_type with
             | some (some nm) => nm
             | _ => "BOOL"))]) ∧
     (impl.pou_type = PouType.program ∨ impl.pou_type = PouType.functionBlock →
        elem.children.filter (fun c => c.name == RESULT_TYPE) = [])) := by
  intro gp cu sp now fs impl S md elem S2 tr hmd h
  rw [processImpl] at h
  rw [hmd] at h
  dsimp only at h
  split at h
  next => exact absurd h (by simp)
  next hkind =>
    split at h
    next => exact absurd h (by simp)
    next =>
      cases htext : (match impl.location.span with
        | CodeSpan.range startOffset endOffset =>
            match impl.location.file with
            | FileMarker.file file_path =>
                grab_file_statement_from_span fs file_path startOffset endOffset
            | _ => Except.ok none
        | _ => Except.ok none : Except GenError (Option String)) with
      | error e =>
          rw [htext] at h
          exact absurd h (by simp [bind, Except.bind])
      | ok t =>
          rw [htext] at h
          simp only [bind, Except.bind] at h
          cases t with
          | none => exact absurd h (by simp)
          | some body =>
              dsimp only at h
              cases hbl : genPouBlocksLoop gp md.name sp md.variable_blocks
                  initContainers S with
              | error e => rw [hbl] at h; exact absurd h (by simp)
              | ok out =>
                  rw [hbl] at h
                  dsimp only at h
                  obtain ⟨n1, n2, n3, n4, n5, n6, n7, n8, n9, n10, n11⟩ :=
                    contsNamesOK_blocksLoop gp md.name sp md.variable_blocks
                      initContainers S out hbl contsNamesOK_init
                  split at h
                  next hbe => exact absurd h (by simp)
                  next chosen hbe =>
                    simp only [Except.ok.injEq, Option.some.injEq,
                      Prod.mk.injEq] at h
                    obtain ⟨helem, -, -⟩ := h
                    subst helem
                    rw [buildPouElement.eq_def] at hbe
                    cases hk : impl.pou_type with
                    | otherKind =>
                        rw [hk] at hbe
                        exact absurd hbe (by simp)
                    | program =>
                        rw [hk] at hbe
                        simp only [Option.some.injEq] at hbe
                        subst hbe
                        refine ⟨fun hcontra => absurd hcontra (by simp), fun _ => ?_⟩
                        simp [Node.child, Node.new, Node.attr, List.filter,
                          n4, n5, n6, n7, n8, n9, RESULT_TYPE]
                    | functionBlock =>
                        rw [hk] at hbe
                        simp only [Option.some.injEq] at hbe
                        subst hbe
                        refine ⟨fun hcontra => absurd hcontra (by simp), fun _ => ?_⟩
                        simp [Node.child, Node.new, Node.attr, List.filter,
                          n4, n5, n6, RESULT_TYPE]
                    | function =>
                        rw [hk] at hbe
                        simp only [Option.some.injEq] at hbe
                        subst hbe
                        refine ⟨fun _ => ?_, fun hcontra => by
                          rcases hcontra with hc2 | hc2 <;> simp at hc2⟩
                        cases md.return_type with
                        | none =>
                            simp [Node.child, Node.new, Node.attr,
                              Node.contentSet, List.filter, n4, n5, n10, n11,
                              RESULT_TYPE]
                        | some rt =>
                            cases rt with
                            | none =>
                                simp [Node.child, Node.new, Node.attr,
                                  Node.contentSet, List.filter, n4, n5, n10,
                                  n11, RESULT_TYPE]
                            | some nm =>
                                simp [Node.child, Node.new, Node.attr,
                                  Node.contentSet, List.filter, n4, n5, n10,
                                  n11, RESULT_TYPE]

/-- Concrete fixture: a unit with a function block declaring a return
type. -/
def cuFb : CompilationUnit :=
  ⟨some "main.st", [], [],
   [⟨"FB", [⟨[mkIntVar "i"], .input, false, false⟩], some (some "INT")⟩],
   [⟨"FB", .functionBlock, .internal, locF⟩]⟩

/-- Concrete fixture: the run result on `cuFb`. -/
def stFb : GenState :=
  match parse_project_into_nodetree ⟨false⟩ [cuFb] "schema" "T0" fsF
      (get_omron_template "T0") with
  | .ok st => st
  | .error _ => ⟨[], Node.new "", []⟩

/-- Concrete fixture: the generated `FunctionBlock` element (the only
child of the `Types/GlobalNamespace` anchor after the run). -/
def fbElem : Node :=
  (((stFb.root.children.getD 2 (Node.new "")).children.getD 0
    (Node.new "")).children.getD 0 (Node.new ""))

/-- C7 counterexample: the function block of `cuFb` declares return
type `INT`, yet its generated element has no `ResultType` child —
its children are exactly AddData, Parameters, the two external
containers, the local container and MainBody. -/
theorem C7_counterexample :
    (cuFb.pous.map (fun p => p.return_type)) = [some (some "INT")] ∧
    fbElem.name = "FunctionBlock" ∧
    fbElem.children.map (fun c => c.name) =
      ["AddData", "Parameters", "ExternalVars", "ExternalVars", "SVars",
       "MainBody"] ∧
    RESULT_TYPE ∉ fbElem.children.map (fun c => c.name) :=
  ⟨rfl, by rfl, by rfl, by decide⟩

/-- Concrete fixture: the implementation of `cuF`. -/
def implF : Implementation := ⟨"G", .function, .internal, locF⟩

/-- Concrete fixture: the declared metadata of `cuF`. -/
def mdF : Pou :=
  ⟨"G", [⟨[mkIntVar "a", mkIntVar "b"], .input, false, false⟩,
         ⟨[mkIntVar "c", mkIntVar "d"], .output, false, false⟩], none⟩

/-- Concrete fixture: the processed implementation of `cuF`. -/
def procF : Except GenError (Option (Node × List (String × Nat) × List (String × Nat))) :=
  processImpl ⟨false⟩ cuF "schema" "T0" fsF implF []

/-- Concrete fixture: the generated `Function` element of `cuF`. -/
def elemF : Node :=
  match procF with
  | .ok (some (e, _, _)) => e
  | _ => Node.new ""

/-- Concrete fixture: the order set after processing `cuF`. -/
def s2F : List (String × Nat) :=
  match procF with
  | .ok (some (_, s, _)) => s
  | _ => []

/-- Concrete fixture: the assignment trace of `cuF`. -/
def trF : List (String × Nat) :=
  match procF with
  | .ok (some (_, _, t)) => t
  | _ => []

/-- Witness for C7 at the concrete function of `cuF`. -/
theorem C7_result_type_witness :
    (implF.pou_type = PouType.function →
      elemF.children.filter (fun c => c.name == RESULT_TYPE) =
        [(Node.new RESULT_TYPE).child ((Node.new "TypeName").contentSet
          (match mdF.return_type with
           | some (some nm) => nm
           | _ => "BOOL"))]) ∧
    (implF.pou_type = PouType.program ∨ implF.pou_type = PouType.functionBlock →
      elemF.children.filter (fun c => c.name == RESULT_TYPE) = []) :=
  C7_result_type ⟨false⟩ cuF "schema" "T0" fsF implF [] mdF elemF s2F trF
    (by rfl) (by rfl)

/-- Helper: triangular numbers, the cumulative increments of the order
search. -/
def Tri : Nat → Nat
  | 0 => 0
  | k + 1 => Tri k + (k + 1)

/-- Helper: twice a triangular number. -/
theorem Tri_double (k : Nat) : 2 * Tri k = k * (k + 1) := by
  induction k with
  | zero => rfl
  | succ n ih =>
      rw [Tri]
      ring_nf
      ring_nf at ih
      omega

/-- Helper: closed form of the triangular numbers. -/
theorem Tri_eq (k : Nat) : Tri k = k * (k + 1) / 2 := by
  have h := Tri_double k
  omega

/-- Helper: a successful probe run visits exactly the values
`iter + (k+1)·inc + Tri k` (mod `2^64`), all earlier ones claimed, and
claims the first free one. -/
theorem searchOrderGo_char (pou : String) (S : List (String × Nat)) :
    ∀ (fuel : Nat) (iter inc : Nat) (o : Nat) (S2 : List (String × Nat)),
    inc + fuel ≤ U64 →
    searchOrderGo pou fuel iter inc S = .ok (o, S2) →
    ∃ k, k < fuel ∧ o = (iter + (k + 1) * inc + Tri k) % U64 ∧
      (∀ j < k, (pou, (iter + (j + 1) * inc + Tri j) % U64) ∈ S) ∧
      (pou, o) ∉ S ∧ S2 = (pou, o) :: S := by
  intro fuel
  induction fuel with
  | zero => intro iter inc o S2 hf h; simp [searchOrderGo] at h
  | succ n ih =>
      intro iter inc o S2 hf h
      rw [searchOrderGo] at h
      split at h
      next hmem =>
        cases n with
        | zero => simp [searchOrderGo] at h
        | succ m =>
            have hinc : (inc + 1) % U64 = inc + 1 := by
              apply Nat.mod_eq_of_lt
              omega
            rw [hinc] at h
            obtain ⟨k, hk, ho, hjs, hni, hs2⟩ := ih ((iter + inc) % U64)
              (inc + 1) o S2 (by omega) h
            refine ⟨k + 1, by omega, ?_, ?_, hni, hs2⟩
            · rw [ho, Nat.add_assoc, Nat.mod_add_mod, ← Nat.add_assoc]
              congr 1
              rw [Tri]
              ring
            · intro j hj
              cases j with
              | zero =>
                  simpa [Tri] using hmem
              | succ i =>
                  have := hjs i (by omega)
                  rw [Nat.add_assoc, Nat.mod_add_mod, ← Nat.add_assoc] at this
                  have harith : iter + inc + (i + 1) * (inc + 1) + Tri i =
                      iter + (i + 1 + 1) * inc + Tri (i + 1) := by
                    rw [Tri]
                    ring
                  rw [harith] at this
                  exact this
      next hmem =>
        simp only [Except.ok.injEq, Prod.mk.injEq] at h
        refine ⟨0, by omega, ?_, by omega, ?_, ?_⟩
        · rw [← h.1]
          simp [Tri]
        · rw [← h.1]
          simpa using hmem
        · rw [← h.2, ← h.1]

/-- Helper: when the start index itself is free, the search claims it
immediately. -/
theorem searchOrder_first_free (pn : String) (c : Nat)
    (S : List (String × Nat)) (hc : c < U64) (hfree : (pn, c) ∉ S) :
    searchOrder pn c S = .ok (c, (pn, c) :: S) := by
  have h0 : (c + 0) % U64 = c := by
    rw [Nat.add_zero]
    exact Nat.mod_eq_of_lt hc
  have hcont : ¬ (S.contains (pn, c) = true) := by simpa using hfree
  rw [searchOrder, searchOrderGo]
  simp only [h0]
  rw [if_neg hcont]

/-- Helper: success shape of the variable generator when the type name
resolves and the order search succeeds. -/
theorem gve_true_ok (v : Variable) (gp : GenerationParameters)
    (pn sp np : String) (S : List (String × Nat)) (order : Nat) (tn : String)
    (hd : v.data_type_declaration = some tn) (o : Nat)
    (S2 : List (String × Nat)) (hso : searchOrder pn order S = .ok (o, S2)) :
    ∃ res : VarElemResult,
      generate_variable_element v gp pn sp np S order true = .ok (some res) ∧
      res.preused = S2 ∧ res.assigned = some (pn, o) := by
  rw [generate_variable_element, hd]
  dsimp only
  rw [if_pos rfl, hso]
  exact ⟨_, rfl, rfl, rfl⟩

/-- Helper: a block of fully-resolvable variables processed against a
tracker holding exactly the orders below `c` receives the consecutive
orders `c, c+1, …` in declaration order. -/
theorem block_assign_dense (gp : GenerationParameters) (pn sp : String)
    (blk : VariableBlock) (hord : use_order_attr blk.kind = true) :
    ∀ (vars : List Variable) (c : Nat) (conts : PouContainers)
      (S : List (String × Nat)),
    (∀ v ∈ vars, v.location.span ≠ CodeSpan.none ∧
      v.data_type_declaration.isSome) →
    (∀ j : Nat, ((pn, j) ∈ S ↔ j < c)) →
    c + vars.length < U64 →
    ∃ out, genPouVarsLoop gp pn sp blk vars c conts S = .ok out ∧
      out.2.2 = (List.range' c vars.length).map (fun j => (pn, j)) ∧
      (∀ j : Nat, ((pn, j) ∈ out.2.1 ↔ j < c + vars.length)) := by
  intro vars
  induction vars with
  | nil =>
      intro c conts S hall hS hlt
      refine ⟨(conts, S, []), ?_, by simp, by simpa using hS⟩
      rw [genPouVarsLoop]
  | cons v rest ih =>
      intro c conts S hall hS hlt
      obtain ⟨hspan, hdt⟩ := hall v (List.mem_cons_self _ _)
      obtain ⟨tn, hd⟩ := Option.isSome_iff_exists.mp hdt
      have hc : c < U64 := by simp at hlt; omega
      have hfree : (pn, c) ∉ S := by
        rw [hS c]
        omega
      have hso := searchOrder_first_free pn c S hc hfree
      obtain ⟨res, hg, hpre, hasg⟩ := gve_true_ok v gp pn sp
        (match blk.kind with
          | .global network_publish_mode => network_publish_mode
          | _ => "DoNotPublish") S c tn hd c ((pn, c) :: S) hso
      have hS2 : ∀ j : Nat, ((pn, j) ∈ (pn, c) :: S ↔ j < c + 1) := by
        intro j
        simp only [List.mem_cons, Prod.mk.injEq, true_and]
        rw [hS j]
        omega
      obtain ⟨out2, hrec, htr, hmem⟩ := ih (c + 1)
        (placeVariableNode blk conts res.node) ((pn, c) :: S)
        (fun w hw => hall w (List.mem_cons_of_mem _ hw))
        hS2 (by simp at hlt ⊢; omega)
      refine ⟨(out2.1, out2.2.1, res.assigned.toList ++ out2.2.2), ?_, ?_, ?_⟩
      · rw [genPouVarsLoop, if_neg hspan]
        dsimp only
        rw [hord, hg]
        simp only [bind, Except.bind]
        rw [hpre, hrec]
      · simp only [hasg, Option.toList, htr, List.length_cons]
        rw [List.range'_succ]
        simp
      · intro j
        rw [List.length_cons]
        rw [show c + (rest.length + 1) = c + 1 + rest.length by omega]
        exact hmem j

/-- C4 (amended): the order search starting at the declared index
probes `index + Tri k` for `k = 0, 1, 2, …` (mod `2^64`), where
`Tri k = k(k+1)/2` — the increment grows by one each probe, it is not
a successive-integer search — and claims the first free key; a single
block of `N` resolvable variables against an empty tracker still
receives exactly the orders `0 … N-1` in declaration order. -/
theorem C4_probe_sequence :
    (∀ (pou : String) (S : List (String × Nat)) (start o : Nat)
       (S2 : List (String × Nat)),
      S.length < U64 →
      searchOrder pou start S = .ok (o, S2) →
      ∃ k, o = (start + Tri k) % U64 ∧ Tri k = k * (k + 1) / 2 ∧
        (∀ j < k, (pou, (start + Tri j) % U64) ∈ S) ∧
        (pou, o) ∉ S ∧ S2 = (pou, o) :: S) ∧
    (∀ (gp : GenerationParameters) (pn sp : String) (blk : VariableBlock)
       (conts : PouContainers),
      use_order_attr blk.kind = true →
      (∀ v ∈ blk.vars, v.location.span ≠ CodeSpan.none ∧
        v.data_type_declaration.isSome) →
      blk.vars.length < U64 →
      ∃ out, genPouVarsLoop gp pn sp blk blk.vars 0 conts [] = .ok out ∧
        out.2.2 = (List.range blk.vars.length).map (fun j => (pn, j))) := by
  constructor
  · intro pou S start o S2 hlen h
    rw [searchOrder] at h
    obtain ⟨k, hk, ho, hjs, hni, hs2⟩ :=
      searchOrderGo_char pou S (S.length + 1) start 0 o S2 (by omega) h
    refine ⟨k, ?_, Tri_eq k, ?_, hni, hs2⟩
    · simpa using ho
    · intro j hj
      have := hjs j hj
      simpa using this
  · intro gp pn sp blk conts hord hall hlen
    obtain ⟨out, hloop, htr, -⟩ := block_assign_dense gp pn sp blk hord
      blk.vars 0 conts [] hall (by simp) (by omega)
    refine ⟨out, hloop, ?_⟩
    rw [htr, List.range_eq_range']

/-- Concrete fixture: an input block of two variables. -/
def inBlkW : VariableBlock :=
  ⟨[mkIntVar "x", mkIntVar "y"], .input, false, false⟩

/-- Witness for C4 at the concrete tracker of `C4_counterexample` and
a concrete two-variable block. -/
theorem C4_probe_sequence_witness :
    (∃ k, 3 = (0 + Tri k) % U64 ∧ Tri k = k * (k + 1) / 2 ∧
      (∀ j < k, (("P", (0 + Tri j) % U64) : String × Nat) ∈
        [(("P", 0) : String × Nat), ("P", 1)]) ∧
      (("P", 3) : String × Nat) ∉ [(("P", 0) : String × Nat), ("P", 1)] ∧
      [(("P", 3) : String × Nat), ("P", 0), ("P", 1)] =
        ("P", 3) :: [(("P", 0) : String × Nat), ("P", 1)]) ∧
    (∃ out, genPouVarsLoop ⟨false⟩ "W" "schema" inBlkW inBlkW.vars 0
        initContainers [] = .ok out ∧
      out.2.2 = (List.range inBlkW.vars.length).map (fun j => (("W", j) :
        String × Nat))) :=
  ⟨C4_probe_sequence.1 "P" [("P", 0), ("P", 1)] 0 3 [("P", 3), ("P", 0), ("P", 1)]
    (by decide) rfl,
   C4_probe_sequence.2 ⟨false⟩ "W" "schema" inBlkW initContainers rfl
    (by decide) (by decide)⟩
